import Mathlib

/-!
Verification of the incentive calculation engine of the insurance incentive
dashboard (`incentive_engine.py`, `data_loader.py`, `analysis.py`).

The Python sources are shallowly embedded below.  Conventions used throughout:

* pandas `Timestamp` values are modelled as integers (days since an epoch);
  `Timestamp.normalize()` is then the identity, `Timedelta(days=n)` is `+ n`,
  and `Timestamp.replace(year=year-1)` is implemented with the standard
  civil-calendar conversion (`subOneYear` below).
* A missing column value and a `NaN` value are both modelled as `none`
  (an `Option` field); the data loader coerces all numeric fields, so the
  distinction only matters for pandas truthiness corner cases, which are
  noted where they occur.
* Column *presence* checks (`'x' in df.columns`) are modelled by an explicit
  `cols` list carried next to the rows of a rule `Frame`.
* Monetary amounts, targets, rewards and rates are exact rationals.  The
  arithmetic on `ℚ` is routed through the kernel-reducible wrappers
  `radd`/`rsub`/`rmul`/`rdiv`/`rmin`/`rmax` which are proved equal to the
  ordinary field operations, so that concrete runs of the embedded code can
  be evaluated by `decide` while algebraic proofs use the usual lemmas.
* Display-only payload (the `steps_info` description strings, the
  per-contract evidence lists `contracts_info`, and the backtracked
  `targets` map of the UI scenarios) is elided from the result record;
  every field that any later computation reads is kept.
-/

set_option maxRecDepth 20000
set_option maxHeartbeats 1000000

/-! ## Kernel-reducible rational arithmetic -/

/-- Reducible addition on `ℚ` (the library operation is `irreducible`). -/
def radd (a b : ℚ) : ℚ := mkRat (a.num * b.den + b.num * a.den) (a.den * b.den)

/-- Reducible multiplication on `ℚ`. -/
def rmul (a b : ℚ) : ℚ := mkRat (a.num * b.num) (a.den * b.den)

/-- Reducible division on `ℚ` (`rdiv a 0 = 0`, as for `a / 0`). -/
def rdiv (a b : ℚ) : ℚ := rmul a (mkRat (Int.sign b.num * b.den) b.num.natAbs)

/-- Reducible subtraction on `ℚ`. -/
def rsub (a b : ℚ) : ℚ := mkRat (a.num * b.den - b.num * a.den) (a.den * b.den)

/-- Reducible binary minimum on `ℚ`. -/
def rmin (a b : ℚ) : ℚ := if a ≤ b then a else b

/-- Reducible binary maximum on `ℚ`. -/
def rmax (a b : ℚ) : ℚ := if a ≤ b then b else a

theorem den_cast_ne (a : ℚ) : (a.den : ℚ) ≠ 0 := Nat.cast_ne_zero.mpr a.den_nz

theorem num_cast_eq (a : ℚ) : (a.num : ℚ) = a * a.den :=
  (div_eq_iff (den_cast_ne a)).mp (Rat.num_div_den a)

theorem radd_eq (a b : ℚ) : radd a b = a + b := by
  rw [radd, Rat.mkRat_eq_div]
  push_cast
  rw [num_cast_eq a, num_cast_eq b, div_eq_iff (mul_ne_zero (den_cast_ne a) (den_cast_ne b))]
  ring

theorem rmul_eq (a b : ℚ) : rmul a b = a * b := by
  rw [rmul, Rat.mkRat_eq_div]
  push_cast
  rw [num_cast_eq a, num_cast_eq b, div_eq_iff (mul_ne_zero (den_cast_ne a) (den_cast_ne b))]
  ring

theorem rsub_eq (a b : ℚ) : rsub a b = a - b := by
  rw [rsub, Rat.mkRat_eq_div]
  push_cast
  rw [num_cast_eq a, num_cast_eq b, div_eq_iff (mul_ne_zero (den_cast_ne a) (den_cast_ne b))]
  ring

theorem rdiv_eq (a b : ℚ) : rdiv a b = a / b := by
  rw [rdiv, rmul_eq, div_eq_mul_inv]
  congr 1
  rw [Rat.mkRat_eq_divInt]
  rcases lt_trichotomy b.num 0 with hneg | hzero | hpos
  · have hsign : b.num.sign = -1 := Int.sign_eq_neg_one_of_neg hneg
    have habs : (b.num.natAbs : ℤ) = -b.num := Int.ofNat_natAbs_of_nonpos (le_of_lt hneg)
    rw [hsign, habs, Rat.inv_def']
    rw [show ((-1 : ℤ) * b.den) = -(b.den : ℤ) by ring]
    exact Rat.neg_divInt_neg _ _
  · have hb : b = 0 := Rat.num_eq_zero.mp hzero
    rw [hzero, hb]
    simp
  · have hsign : b.num.sign = 1 := Int.sign_eq_one_of_pos hpos
    have habs : (b.num.natAbs : ℤ) = b.num := Int.natAbs_of_nonneg (le_of_lt hpos)
    rw [hsign, habs, Rat.inv_def', show ((1 : ℤ) * b.den) = (b.den : ℤ) from one_mul _]

theorem rmin_eq (a b : ℚ) : rmin a b = min a b := by
  rw [rmin, min_def]

theorem rmax_eq (a b : ℚ) : rmax a b = max a b := by
  rw [rmax, max_def]

/-- `pandas.Series.sum()` over a list of rationals (left fold, 0 for empty). -/
def qsum (l : List ℚ) : ℚ := l.foldl radd 0

/-- `pandas.Series.max()` over a non-empty list of rationals
(the default value is only used for the empty list). -/
def qmax : List ℚ → ℚ
  | [] => 0
  | h :: t => t.foldl rmax h

theorem qmax_cons (h : ℚ) (t : List ℚ) : qmax (h :: t) = t.foldl rmax h := rfl

theorem foldl_rmax_le_iff (l : List ℚ) (a c : ℚ) :
    l.foldl rmax a ≤ c ↔ a ≤ c ∧ ∀ x ∈ l, x ≤ c := by
  induction l generalizing a with
  | nil => simp
  | cons h t ih =>
    simp only [List.foldl_cons, ih, rmax_eq, max_le_iff, List.mem_cons]
    constructor
    · rintro ⟨⟨h1, h2⟩, h3⟩
      exact ⟨h1, fun x hx => hx.elim (fun e => e ▸ h2) (h3 x)⟩
    · rintro ⟨h1, h2⟩
      exact ⟨⟨h1, h2 h (Or.inl rfl)⟩, fun x hx => h2 x (Or.inr hx)⟩

theorem le_qmax_of_mem {l : List ℚ} {x : ℚ} (hx : x ∈ l) : x ≤ qmax l := by
  cases l with
  | nil => cases hx
  | cons h t =>
    by_contra hc
    have := (foldl_rmax_le_iff t h (qmax (h :: t))).mp le_rfl
    rcases List.mem_cons.mp hx with rfl | hmem
    · exact hc this.1
    · exact hc (this.2 x hmem)

theorem foldl_rmax_mem (l : List ℚ) (a : ℚ) : l.foldl rmax a = a ∨ l.foldl rmax a ∈ l := by
  induction l generalizing a with
  | nil => exact Or.inl rfl
  | cons h t ih =>
    simp only [List.foldl_cons]
    rcases ih (rmax a h) with heq | hmem
    · rw [heq, rmax_eq, max_def]
      split
      · exact Or.inr (List.mem_cons_self _ _)
      · exact Or.inl rfl
    · exact Or.inr (List.mem_cons_of_mem _ hmem)

theorem qmax_mem {l : List ℚ} (hl : l ≠ []) : qmax l ∈ l := by
  cases l with
  | nil => exact absurd rfl hl
  | cons h t =>
    rcases foldl_rmax_mem t h with heq | hmem
    · rw [qmax_cons, heq]; exact List.mem_cons_self _ _
    · rw [qmax_cons]; exact List.mem_cons_of_mem _ hmem

/-! ## Stable insertion sort (model of a stable `sort`; `pandas.sort_values`
uses an unstable quicksort, but every rule set considered in the claims has
pairwise distinct keys, for which the two coincide) -/

/-- Insert `x` before the first element `y` with `le x y`. -/
def insertLe {α : Type} (le : α → α → Bool) (x : α) : List α → List α
  | [] => [x]
  | y :: ys => if le x y then x :: y :: ys else y :: insertLe le x ys

/-- Stable insertion sort. -/
def isort {α : Type} (le : α → α → Bool) : List α → List α
  | [] => []
  | x :: xs => insertLe le x (isort le xs)

theorem mem_insertLe {α : Type} (le : α → α → Bool) (x y : α) (l : List α) :
    y ∈ insertLe le x l ↔ y = x ∨ y ∈ l := by
  induction l with
  | nil => simp [insertLe]
  | cons h t ih =>
    simp only [insertLe]
    split
    · simp
    · simp only [List.mem_cons, ih]
      tauto

theorem mem_isort {α : Type} (le : α → α → Bool) (x : α) (l : List α) :
    x ∈ isort le l ↔ x ∈ l := by
  induction l with
  | nil => simp [isort]
  | cons h t ih => simp [isort, mem_insertLe, ih]

theorem length_insertLe {α : Type} (le : α → α → Bool) (x : α) (l : List α) :
    (insertLe le x l).length = l.length + 1 := by
  induction l with
  | nil => rfl
  | cons h t ih =>
    simp only [insertLe]
    split
    · rfl
    · simp [ih]

theorem length_isort {α : Type} (le : α → α → Bool) (l : List α) :
    (isort le l).length = l.length := by
  induction l with
  | nil => rfl
  | cons h t ih => simp [isort, length_insertLe, ih]

/-- A `Bool` relation is a total preorder (enough for sortedness). -/
def TotalBool {α : Type} (le : α → α → Bool) : Prop :=
  (∀ a b, le a b = true ∨ le b a = true) ∧
  (∀ a b c, le a b = true → le b c = true → le a c = true)

theorem sorted_insertLe {α : Type} {le : α → α → Bool} (htot : TotalBool le)
    (x : α) {l : List α} (hl : l.Pairwise (fun a b => le a b = true)) :
    (insertLe le x l).Pairwise (fun a b => le a b = true) := by
  induction l with
  | nil => simp [insertLe]
  | cons h t ih =>
    rcases List.pairwise_cons.mp hl with ⟨hrel, htl⟩
    simp only [insertLe]
    split
    · rename_i hle
      refine List.pairwise_cons.mpr ⟨?_, hl⟩
      intro b hb
      rcases List.mem_cons.mp hb with rfl | hbt
      · exact hle
      · exact htot.2 _ _ _ hle (hrel b hbt)
    · rename_i hnle
      refine List.pairwise_cons.mpr ⟨?_, ih htl⟩
      intro b hb
      rcases (mem_insertLe le x b t).mp hb with rfl | hbt
      · rcases htot.1 h b with hh | hh
        · exact hh
        · exact absurd hh (by simpa using hnle)
      · exact hrel b hbt

theorem sorted_isort {α : Type} {le : α → α → Bool} (htot : TotalBool le) (l : List α) :
    (isort le l).Pairwise (fun a b => le a b = true) := by
  induction l with
  | nil => exact List.Pairwise.nil
  | cons h t ih => exact sorted_insertLe htot h ih

/-- Decidable equality for `Except` values (needed to `decide` concrete
runs of the fallible evaluation). -/
instance {e a : Type} [DecidableEq e] [DecidableEq a] : DecidableEq (Except e a) :=
  fun x y =>
    match x, y with
    | .ok u, .ok v =>
      if h : u = v then .isTrue (by rw [h]) else .isFalse (by simp [h])
    | .error u, .error v =>
      if h : u = v then .isTrue (by rw [h]) else .isFalse (by simp [h])
    | .ok _, .error _ => .isFalse (by simp)
    | .error _, .ok _ => .isFalse (by simp)

/-! ## Calendar helpers (for `Timestamp.replace(year=year-1)`) -/

/-- Civil date from a day number (Hinnant's algorithm; day 0 = 1970-01-01). -/
def civilFromDays (z0 : Int) : Int × Int × Int :=
  let z := z0 + 719468
  let era := (if z ≥ 0 then z else z - 146096) / 146097
  let doe := z - era * 146097
  let yoe := (doe - doe / 1460 + doe / 36524 - doe / 146096) / 365
  let y := yoe + era * 400
  let doy := doe - (365 * yoe + yoe / 4 - yoe / 100)
  let mp := (5 * doy + 2) / 153
  let d := doy - (153 * mp + 2) / 5 + 1
  let m := mp + (if mp < 10 then 3 else -9)
  (y + (if m ≤ 2 then 1 else 0), m, d)

/-- Day number from a civil date (Hinnant's algorithm). -/
def daysFromCivil (y0 m d : Int) : Int :=
  let y := y0 - (if m ≤ 2 then 1 else 0)
  let era := (if y ≥ 0 then y else y - 399) / 400
  let yoe := y - era * 400
  let mp := if m > 2 then m - 3 else m + 9
  let doy := (153 * mp + 2) / 5 + d - 1
  let doe := yoe * 365 + yoe / 4 - yoe / 100 + doy
  era * 146097 + doe - 719468

/-- `pd.Timestamp.replace(year = year - 1)`.  (pandas raises on Feb 29 of a
leap year; this model maps it to the canonical extrapolated day instead —
no claim depends on that date.) -/
def subOneYear (t : Int) : Int :=
  match civilFromDays t with
  | (y, m, d) => daysFromCivil (y - 1) m d

/-! ## Data model -/

/-- One contract record (a row of the contracts DataFrame produced by the
loader; `분류` is always materialised by the loader, see
`data_loader.py:539`). -/
structure Contract where
  /-- 접수일 (acceptance date). -/
  acceptDate : Int := 0
  /-- 보험료 (premium). -/
  premium : ℚ := 0
  /-- 상품명 (product name). -/
  productName : String := ""
  /-- 분류 (category assigned by `classify_product`). -/
  category : Option String := none
  /-- 회사 (company). -/
  company : Option String := none
  /-- 사원명 (agent name). -/
  agentName : Option String := none
  deriving DecidableEq, Inhabited, Repr

/-- One award-rule row (`시상규칙` sheet or `연속형시상규칙.csv`).
`none` models both NaN and an absent column; presence of a column in the
surrounding frame is tracked separately (`Frame.cols`). -/
structure RuleRow where
  /-- 회사. -/
  company : Option String := none
  /-- 시상명. -/
  awardName : Option String := none
  /-- 유형. -/
  awardType : Option String := none
  /-- 지급률 (rate-type percentage). -/
  payRate : Option ℚ := none
  /-- 1단계목표 … 9단계목표 (index 0 ↔ `1단계목표`). -/
  stepTargets : List (Option ℚ) := []
  /-- 1단계보상 … 9단계보상 (index 0 ↔ `1단계보상`). -/
  stepRewards : List (Option ℚ) := []
  /-- 목표실적. -/
  targetPerf : Option ℚ := none
  /-- 보상금액. -/
  reward : Option ℚ := none
  /-- 이전구간조건. -/
  prevCond : Option ℚ := none
  /-- 시작일. -/
  startDate : Option Int := none
  /-- 종료일. -/
  endDate : Option Int := none
  /-- 비교시상 (comparison-group key). -/
  compareAward : Option String := none
  /-- 포함상품. -/
  includeProducts : Option String := none
  /-- 상품구분. -/
  productCat : Option String := none
  /-- 연속단계. -/
  consecutiveStage : Option Int := none
  /-- 구간번호. -/
  periodNo : Option Int := none
  deriving DecidableEq, Inhabited, Repr

/-- A rule DataFrame: rows plus the list of present column names. -/
structure Frame where
  rows : List RuleRow := []
  cols : List String := []
  deriving DecidableEq, Inhabited, Repr

/-- `i단계목표` of a row, `rule.get(f'{i}단계목표')` (1-based `i`). -/
def RuleRow.stepTarget (r : RuleRow) (i : Nat) : Option ℚ :=
  (r.stepTargets.getD (i - 1) none)

/-- `i단계보상` of a row, `rule.get(f'{i}단계보상')` (1-based `i`). -/
def RuleRow.stepReward (r : RuleRow) (i : Nat) : Option ℚ :=
  (r.stepRewards.getD (i - 1) none)

/-- Per-period statistics entry of a consecutive evaluation
(`period_stats[p]`; the `contracts` / `possible_targets` display payload is
elided). -/
structure PStat where
  /-- `perf`: total premium in the period window. -/
  perf : ℚ := 0
  /-- `max_target`: highest achieved tier target of the period (0 if none). -/
  maxTarget : ℚ := 0
  /-- `start` of the period window. -/
  start : Int := 0
  /-- `end` of the period window. -/
  stop : Int := 0
  deriving DecidableEq, Inhabited, Repr

/-- A result row (the dict built by the calculators / batch orchestrator /
competing-award resolver).  Missing dict keys are modelled by the defaults
noted on each field. -/
structure CalcResult where
  /-- 실적. -/
  perf : ℚ := 0
  /-- 지급금액. -/
  payout : ℚ := 0
  /-- 최종지급금액 (initialised by the calculators, overwritten by
  `resolve_competing_awards`; an error row has no such key — modelled 0). -/
  finalTotal : ℚ := 0
  /-- 달성단계 (`none` = key present with value `None`/key absent). -/
  stage : Option ℚ := none
  /-- 달성률. -/
  rate : ℚ := 0
  /-- 다음목표. -/
  nextTarget : Option ℚ := none
  /-- 부족금액. -/
  shortfall : ℚ := 0
  /-- 지급률 (only set by the rate evaluator). -/
  payRate : Option ℚ := none
  /-- `period_stats` (association list period number ↦ stats). -/
  periodStats : List (Int × PStat) := []
  /-- whether the `period_stats` key is present in the dict. -/
  hasPeriodStats : Bool := false
  /-- rewards of the UI `scenarios` list (their backtracked target maps are
  display-only and elided). -/
  scenarioRewards : List ℚ := []
  /-- whether the `scenarios` key is present in the dict. -/
  hasScenarios : Bool := false
  /-- 예상지급금액. -/
  expectedPayout : ℚ := 0
  /-- 지급시기도래. -/
  payoutDue : Bool := true
  /-- 회사. -/
  company : Option String := none
  /-- 시상명. -/
  awardName : Option String := none
  /-- 유형. -/
  awardType : String := ""
  /-- 비교시상. -/
  compareAward : Option String := none
  /-- 시작일. -/
  startDate : Option Int := none
  /-- 종료일. -/
  endDate : Option Int := none
  /-- 상품구분. -/
  productCat : Option String := none
  /-- 설계사 (set by the batch orchestrator). -/
  agent : String := ""
  /-- 정렬_목표실적 (`none` on error rows, where the key is absent). -/
  sortTarget : Option ℚ := none
  /-- 기준보상. -/
  baseReward : ℚ := 0
  /-- 목표실적 copied onto the row (individual-row branch). -/
  targetPerf : ℚ := 0
  /-- 선택여부 (the column is only created by `resolve_competing_awards`;
  `true` models `row.get('선택여부', True)` before that). -/
  isSelected : Bool := true
  /-- 오류. -/
  error : Option String := none
  deriving DecidableEq, Inhabited, Repr

/-! ## `data_loader.py` filters -/

/-- `filter_by_period` (`data_loader.py:596`): keeps contracts with
`start_date <= 접수일 <= end_date` — both endpoints inclusive. -/
def filter_by_period (contracts : List Contract) (start_date end_date : Int) :
    List Contract :=
  contracts.filter fun c =>
    decide (start_date ≤ c.acceptDate) && decide (c.acceptDate ≤ end_date)

/-- Substring containment, `pat in s` of Python. -/
def strContains (s pat : String) : Bool :=
  (List.range (s.toList.length + 1)).any fun i => pat.toList.isPrefixOf (s.toList.drop i)

/-- Python `str.strip()`: drop leading and trailing whitespace, modelled
directly over the underlying character list. -/
def strip (s : String) : String :=
  ⟨((s.data.dropWhile Char.isWhitespace).reverse.dropWhile Char.isWhitespace).reverse⟩

/-- The 상품구분 branch of `filter_by_products` (`data_loader.py:561-566`):
keep contracts whose `분류` equals the trimmed category. -/
def filterByCategory (contracts : List Contract) (cat : Option String) :
    List Contract :=
  match cat with
  | some s =>
    if strip s ≠ "" then
      contracts.filter fun c => c.category == some (strip s)
    else contracts
  | none => contracts

/-- `filter_by_products` (`data_loader.py:546`).  The loader always
materialises the `분류` column (`data_loader.py:539`), so the keyword
fallback for frames without it (`data_loader.py:568-590`) is dead code and
elided here. -/
def filter_by_products (contracts : List Contract)
    (incl : Option String) (cat : Option String) : List Contract :=
  match incl with
  | some s =>
    if strip s ≠ "" then
      let keywords := ((s.splitOn "|").map strip).filter (· ≠ "")
      if keywords ≠ [] then
        contracts.filter fun c => keywords.any fun k => strContains c.productName k
      else
        filterByCategory contracts cat
    else filterByCategory contracts cat
  | none => filterByCategory contracts cat

/-! ## `incentive_engine.py`: rate evaluator -/

/-- `contracts['보험료'].sum() if len(contracts) > 0 else 0`. -/
def sumPremiums (contracts : List Contract) : ℚ :=
  if contracts.length > 0 then qsum (contracts.map (·.premium)) else 0

/-- `calc_rate_type` (`incentive_engine.py:13-41`): 정률형.
If 지급률 is missing/NaN or `≤ 0`, the code falls back to the rule's
`5단계보상` column when that is positive (the "offset column issue"
work-around), else the rate is 0. -/
def calc_rate_type (contracts : List Contract) (rule_group : Frame) : CalcResult :=
  let rule := rule_group.rows.headD {}
  let total := sumPremiums contracts
  let rate : ℚ :=
    if rule.payRate.isNone || decide (rule.payRate.getD 0 ≤ 0) then
      match rule.stepReward 5 with
      | some offset => if 0 < offset then offset else 0
      | none => 0
    else rule.payRate.getD 0
  let incentive := rmul total (rdiv rate 100)
  { perf := total, payout := incentive, finalTotal := incentive,
    stage := none, rate := if 0 < total then 100 else 0,
    nextTarget := none, shortfall := 0, payRate := some rate }

/-! ## `incentive_engine.py`: tiered/summed evaluator -/

/-- One tier: `{'target': …, 'reward': …, 'step': …}`; `step = 0` marks a
row-based tier, `step = i` a column-based one. -/
structure Step where
  target : ℚ := 0
  reward : ℚ := 0
  step : Nat := 0
  deriving DecidableEq, Inhabited, Repr

/-- Tier-list construction of `calc_step_type`
(`incentive_engine.py:71-86`): column-based steps `1단계목표…9단계목표` of
the first row, then row-based steps (`목표실적`/`보상금액`) of every row.
`reward or 0` is modelled as `getD 0` (NaN rewards, which Python would keep
as NaN, are conflated with missing ones — the loader coerces both to
numbers or NaN and no claim involves a NaN reward on a row with a valid
target). -/
def buildSteps (rule_group : Frame) : List Step :=
  let rule_first := rule_group.rows.headD {}
  let colSteps := (List.range 9).filterMap fun i =>
    match rule_first.stepTarget (i + 1) with
    | some t => if 0 < t then some ⟨t, (rule_first.stepReward (i + 1)).getD 0, i + 1⟩ else none
    | none => none
  let rowSteps := rule_group.rows.filterMap fun r =>
    match r.targetPerf with
    | some t => if 0 < t then some ⟨t, r.reward.getD 0, 0⟩ else none
    | none => none
  colSteps ++ rowSteps

/-- Comparator used for `steps_df.sort_values('target')`. -/
def stepLe (a b : Step) : Bool := decide (a.target ≤ b.target)

/-- `calc_step_type` (`incentive_engine.py:67-135`): 계단형/합산형. -/
def calc_step_type (contracts : List Contract) (rule_group : Frame) : CalcResult :=
  let total := sumPremiums contracts
  let steps := buildSteps rule_group
  if steps.isEmpty then
    { perf := total, payout := 0, stage := some 0, rate := 0,
      nextTarget := none, shortfall := 0 }
  else
    let sorted := isort stepLe steps
    let achieved := sorted.filter fun s => decide (s.target ≤ total)
    match achieved.getLast? with
    | some best =>
      let stage : ℚ := if 0 < best.step then (best.step : ℚ) else (achieved.length : ℚ)
      match sorted.filter (fun s => decide (total < s.target)) |>.head? with
      | some nxt =>
        { perf := total, payout := best.reward, finalTotal := best.reward,
          stage := some stage,
          rate := rmin (rmul (rdiv total nxt.target) 100) 100,
          nextTarget := some nxt.target,
          shortfall := rmax (rsub nxt.target total) 0 }
      | none =>
        { perf := total, payout := best.reward, finalTotal := best.reward,
          stage := some stage, rate := rmin 100 100,
          nextTarget := none, shortfall := rmax 0 0 }
    | none =>
      let first_target := (sorted.headD {}).target
      { perf := total, payout := 0, finalTotal := 0, stage := some 0,
        rate := if 0 < first_target then rmul (rdiv total first_target) 100 else 0,
        nextTarget := some first_target,
        shortfall := rmax (rsub first_target total) 0 }

/-! ## `incentive_engine.py`: consecutive evaluator -/

/-- Python truthiness of an (optional) string: `not s`. -/
def optStrFalsy (s : Option String) : Bool :=
  match s with
  | none => true
  | some v => v == ""

/-- `flexible_match` (`incentive_engine.py:157-161`): case-insensitive
comparison after stripping spaces/underscores; equality or substring
containment either way; `False` when either side is NaN. -/
def flexible_match (v1 v2 : Option String) : Bool :=
  match v1, v2 with
  | some a, some b =>
    let ca := ((a.replace " " "").replace "_" "").toLower
    let cb := ((b.replace " " "").replace "_" "").toLower
    ca == cb || strContains cb ca || strContains ca cb
  | _, _ => false

/-- First half of `normalize_rule_row` (`incentive_engine.py:183-188`):
fill a missing/zero 목표실적 from the first positive `i단계목표` column. -/
def fillTargetPerf (r : RuleRow) : RuleRow :=
  if r.targetPerf.isNone || r.targetPerf == some 0 then
    match ((List.range 9).filterMap fun i =>
        match r.stepTarget (i + 1) with
        | some v => if 0 < v then some v else none
        | none => none).head? with
    | some v => { r with targetPerf := some v }
    | none => r
  else r

/-- Second half of `normalize_rule_row` (`incentive_engine.py:189-194`):
fill a missing/zero 보상금액 from the first positive `i단계보상` column. -/
def fillReward (r : RuleRow) : RuleRow :=
  if r.reward.isNone || r.reward == some 0 then
    match ((List.range 9).filterMap fun i =>
        match r.stepReward (i + 1) with
        | some v => if 0 < v then some v else none
        | none => none).head? with
    | some v => { r with reward := some v }
    | none => r
  else r

/-- `normalize_rule_row` (`incentive_engine.py:181-195`). -/
def normalize_rule_row (r : RuleRow) : RuleRow := fillReward (fillTargetPerf r)

/-- `[a, a+1, …, b]` (empty when `b < a`). -/
def intRange (a b : Int) : List Int :=
  (List.range (b + 1 - a).toNat).map fun (i : Nat) => a + (i : Int)

/-- Remove duplicates keeping first occurrences (`pandas.unique`). -/
def uniqueAux {α : Type} [BEq α] : List α → List α → List α
  | _, [] => []
  | seen, x :: xs =>
    if seen.contains x then uniqueAux seen xs else x :: uniqueAux (x :: seen) xs

/-- `Series.unique()` order-preserving deduplication. -/
def uniqueFirst {α : Type} [BEq α] (l : List α) : List α := uniqueAux [] l

/-- `sorted(award_rules['구간번호'].unique())`. -/
def sortedUnique (l : List Int) : List Int :=
  isort (fun a b => decide (a ≤ b)) (uniqueFirst l)

/-- `sort_values` key order on optional rationals, ascending, NaN last. -/
def optQLe (x y : Option ℚ) : Bool :=
  match x, y with
  | none, none => true
  | none, some _ => false
  | some _, none => true
  | some a, some b => decide (a ≤ b)

/-- `sort_values(…, ascending=False)` key order, NaN still last. -/
def optQGe (x y : Option ℚ) : Bool :=
  match x, y with
  | none, none => true
  | none, some _ => false
  | some _, none => true
  | some a, some b => decide (b ≤ a)

/-- Period statistics (`incentive_engine.py:209-275`) for period `p`:
window resolution (with the year-correction), period/company contract
filtering, achieved-target computation. -/
def mkPeriodStat (contracts : List Contract) (cols : List String)
    (rows : List RuleRow) (company : Option String)
    (period_start period_end : Int) (p : Int) : PStat :=
  let p_rules := rows.filter (·.periodNo == some p)
  let p_start0 := ((p_rules.filterMap (·.startDate)).min?).getD period_start
  let p_end0 := ((p_rules.filterMap (·.endDate)).max?).getD period_end
  let p_start := if period_end + 31 < p_start0 then subOneYear p_start0 else p_start0
  let p_end := if period_end + 31 < p_end0 then subOneYear p_end0 else p_end0
  let p_contracts0 := filter_by_period contracts p_start p_end
  let target_company :=
    if optStrFalsy company || company == some "전체" then
      (if cols.contains "회사" then (p_rules.headD {}).company else none)
    else company
  let p_contracts :=
    if !(optStrFalsy target_company || target_company == some "전체") then
      p_contracts0.filter fun c => flexible_match c.company target_company
    else p_contracts0
  let p_total := if p_contracts.isEmpty then 0 else qsum (p_contracts.map (·.premium))
  let achieved := (p_rules.filterMap (·.targetPerf)).filter fun t => decide (t ≤ p_total)
  { perf := p_total,
    maxTarget := if achieved.isEmpty then 0 else qmax achieved,
    start := p_start, stop := p_end }

/-- Rank pairing (`incentive_engine.py:292-299`): period-`p` rules sorted by
보상금액 ascending, zipped positionally with period-`p-1` rules sorted by
목표실적 ascending.  Rows are tagged with their frame position. -/
def rankPairs (rCurr rPrev : List (Nat × RuleRow)) :
    List ((Nat × RuleRow) × (Nat × RuleRow)) :=
  (isort (fun a b => optQLe a.2.reward b.2.reward) rCurr).zip
    (isort (fun a b => optQLe a.2.targetPerf b.2.targetPerf) rPrev)

/-- One step `p` of the inference loop (`incentive_engine.py:286-300`):
when period `p-1` and `p` have equally many rule rows, assign to each
period-`p` row (in reward-ascending rank order) the 목표실적 of the
period-`p-1` row of the same rank as its 이전구간조건. -/
def inferStep (indexed : List (Nat × RuleRow)) (p : Int) : List (Nat × RuleRow) :=
  let rPrev := indexed.filter (·.2.periodNo == some (p - 1))
  let rCurr := indexed.filter (·.2.periodNo == some p)
  if rPrev.length == rCurr.length then
    let assigns := (rankPairs rCurr rPrev).map fun pr => (pr.1.1, pr.2.2.targetPerf)
    indexed.map fun ir =>
      match assigns.lookup ir.1 with
      | some t => (ir.1, { ir.2 with prevCond := t })
      | none => ir
  else indexed

/-- The whole inference pass over periods `2..total`
(`incentive_engine.py:281-300`). -/
def inferPrevConds (rows : List RuleRow) (periodNums : List Int) (total : Int) :
    List RuleRow :=
  ((intRange 2 total).foldl
    (fun acc p => if periodNums.contains (p - 1) then inferStep acc p else acc)
    rows.enum).map (·.2)

/-- `prev_min_achieved >= prev_cond`, where `prev_min_achieved` starts at
`float('inf')` (modelled `none`). -/
def geInf (m : Option ℚ) (c : ℚ) : Bool :=
  match m with
  | none => true
  | some v => decide (c ≤ v)

/-- The `prev_ok_all` / `prev_min_achieved` loop over periods
`1..total-1` (`incentive_engine.py:309-319`), with `break` on a period
whose achieved target is 0. -/
def prevOkFold (stats : List (Int × PStat)) (total : Int) : Bool × Option ℚ :=
  (intRange 1 (total - 1)).foldl
    (fun st p =>
      if !st.1 then st
      else
        let pmax := ((stats.lookup p).map (·.maxTarget)).getD 0
        if pmax == 0 then (false, st.2)
        else (true, some (match st.2 with | none => pmax | some m => rmin m pmax)))
    (true, none)

/-- Core of the consecutive evaluation (`incentive_engine.py:197-414`),
given the resolved `award_rules` frame (with its `구간번호` column already
mapped).  `none` models the `except`-path result `None`. -/
def calcContinuousCore (contracts : List Contract) (rule_group : Frame)
    (period_start period_end : Int) (award_rules : Frame) : Option CalcResult :=
  let rule := rule_group.rows.headD {}
  let company := rule.company
  let rows := award_rules.rows.map normalize_rule_row
  if ¬ award_rules.cols.contains "구간번호" then none
  else
    match (rows.filterMap (·.periodNo)).max? with
    | none => none
    | some total_periods =>
      let periodNums := sortedUnique (rows.filterMap (·.periodNo))
      let stats := periodNums.map fun p =>
        (p, mkPeriodStat contracts award_rules.cols rows company period_start period_end p)
      let rows2 :=
        if decide (1 < total_periods) &&
            (!(award_rules.cols.contains "이전구간조건") ||
              qsum (rows.map fun r => r.prevCond.getD 0) == 0) then
          inferPrevConds rows periodNums total_periods
        else rows
      let final_reward : ℚ :=
        if periodNums.contains total_periods then
          let last_rules :=
            isort (fun a b => optQGe a.reward b.reward)
              (rows2.filter (·.periodNo == some total_periods))
          let curr_perf := ((stats.lookup total_periods).map (·.perf)).getD 0
          let prevInfo := prevOkFold stats total_periods
          if prevInfo.1 then
            match last_rules.find? (fun r =>
                let target := r.targetPerf.getD 0
                let prev_cond_ok := r.prevCond.isNone || r.prevCond == some 0 ||
                  geInf prevInfo.2 (r.prevCond.getD 0)
                let curr_ok := if 0 < target then decide (target ≤ curr_perf) else true
                prev_cond_ok && curr_ok) with
            | some r => r.reward.getD 0
            | none => 0
          else 0
        else 0
      let scenarioRewards :=
        if decide (0 < total_periods) then
          (isort (fun a b => optQLe a.reward b.reward)
            (rows2.filter (·.periodNo == some total_periods))).map (·.reward.getD 0)
        else []
      some { perf := ((stats.lookup total_periods).map (·.perf)).getD 0,
             payout := final_reward, finalTotal := final_reward,
             stage := some (if 0 < final_reward then 1 else 0),
             rate := if 0 < final_reward then 100 else 0,
             shortfall := 0,
             periodStats := stats, hasPeriodStats := true,
             scenarioRewards := scenarioRewards, hasScenarios := true }

/-- `calc_continuous_type` (`incentive_engine.py:138-419`): choose the rule
source (dedicated consecutive-rule frame via fuzzy matching, else the main
sheet's 연속단계 column, else fall back to `calc_step_type`), map the
연속단계 column onto 구간번호 (`astype(int)` raising on NaN models as
`none`), and run the core. -/
def calc_continuous_type (contracts : List Contract) (rule_group : Frame)
    (period_start period_end : Int) (consecutive_rules : Frame) :
    Option CalcResult :=
  let rule := rule_group.rows.headD {}
  let award_name := rule.awardName
  let company := rule.company
  let fromCons : Frame :=
    if !consecutive_rules.rows.isEmpty then
      { rows := consecutive_rules.rows.filter fun r =>
          flexible_match r.awardName award_name && flexible_match r.company company,
        cols := consecutive_rules.cols }
    else { rows := [], cols := consecutive_rules.cols }
  if fromCons.rows.isEmpty then
    if rule_group.cols.contains "연속단계" &&
        rule_group.rows.any (·.consecutiveStage.isSome) then
      if rule_group.rows.all (·.consecutiveStage.isSome) then
        calcContinuousCore contracts rule_group period_start period_end
          { rows := rule_group.rows.map fun r => { r with periodNo := r.consecutiveStage },
            cols := "구간번호" :: rule_group.cols }
      else none
    else some (calc_step_type contracts rule_group)
  else
    if fromCons.cols.contains "연속단계" && !(fromCons.cols.contains "구간번호") then
      if fromCons.rows.all (·.consecutiveStage.isSome) then
        calcContinuousCore contracts rule_group period_start period_end
          { rows := fromCons.rows.map fun r => { r with periodNo := r.consecutiveStage },
            cols := "구간번호" :: fromCons.cols }
      else none
    else calcContinuousCore contracts rule_group period_start period_end fromCons

/-! ## `incentive_engine.py`: single-award evaluation -/

/-- Type dispatch of `calculate_single_award`
(`incentive_engine.py:471-492`), including the consecutive→tiered fallback
(`incentive_engine.py:479-488`); `none` models Python `None`. -/
def singleAwardDispatch (filtered : List Contract) (rule_group : Frame)
    (period_start period_end calc_start calc_end : Int)
    (consecutive_rules : Frame) (award_type : String) : Option CalcResult :=
  if award_type == "정률형" then
    some (calc_rate_type (filter_by_period filtered calc_start calc_end) rule_group)
  else if award_type == "계단형" then
    some (calc_step_type (filter_by_period filtered calc_start calc_end) rule_group)
  else if award_type == "연속형" then
    let r0 := calc_continuous_type filtered rule_group period_start period_end
      consecutive_rules
    let has_step_columns := (List.range 3).any fun i =>
      rule_group.cols.contains (toString (i + 1) ++ "단계보상")
    if (r0.isNone || (r0.getD {}).payout == 0) && has_step_columns then
      let fb := calc_step_type (filter_by_period filtered calc_start calc_end) rule_group
      if 0 < fb.payout then
        some (match r0 with
          | some r =>
            if r.hasPeriodStats then
              { fb with periodStats := r.periodStats, hasPeriodStats := true }
            else fb
          | none => fb)
      else
        match r0 with
        | none => some fb
        | some r => some r
    else r0
  else if award_type == "합산형" then
    some (calc_step_type (filter_by_period filtered calc_start calc_end) rule_group)
  else
    some { perf := 0, payout := 0, stage := none, rate := 0,
           nextTarget := none, shortfall := 0 }

/-- Payout-attribution gate (`incentive_engine.py:494-520`).  With the
day-granular date model `Timestamp.normalize()` is the identity; the query
`period_end` is always defined.  (The `'rows'` sub-update at lines 513-516
is dead code: no calculator emits a `'rows'` key.) -/
def applyPayoutGate (res : CalcResult) (rule_end : Option Int) (period_end : Int) :
    CalcResult :=
  let raw := res.payout
  let is_payout_period :=
    match rule_end with
    | some re => !decide (period_end < re)
    | none => true
  { res with payout := if is_payout_period then raw else 0,
             expectedPayout := raw,
             payoutDue := is_payout_period }

/-- Common result fields (`incentive_engine.py:522-529`). -/
def addCommonFields (res : CalcResult) (rule_group : Frame) (rule : RuleRow)
    (award_type : String) (rule_start rule_end : Option Int) : CalcResult :=
  { res with
    company := if rule_group.cols.contains "회사" then (rule_group.rows.headD {}).company
               else rule.company,
    awardName := if rule_group.cols.contains "시상명" then (rule_group.rows.headD {}).awardName
                 else rule.awardName,
    awardType := award_type,
    compareAward := rule.compareAward,
    startDate := rule_start, endDate := rule_end,
    productCat := rule.productCat }

/-- The raw computed result of `calculate_single_award` before the
payout-attribution gate: company filter (the loader's `회사` column; the
`원수사`/`보험사` aliases collapse to it), product filter, period
intersection and type dispatch (`incentive_engine.py:430-492`). -/
def singleAwardRaw (contracts : List Contract) (rule_group : Frame)
    (period_start period_end : Int) (consecutive_rules : Frame) :
    Option CalcResult :=
  let rule := rule_group.rows.headD {}
  let award_type := rule.awardType.getD ""
  let contracts1 :=
    match rule.company with
    | some rc =>
      if rc != "" && rc != "전체" then contracts.filter fun c => c.company == some rc
      else contracts
    | none => contracts
  let filtered := filter_by_products contracts1 rule.includeProducts rule.productCat
  let rule_start := rule.startDate
  let rule_end := rule.endDate
  let calc_start :=
    if rule_start.isSome && award_type != "연속형" then rule_start.getD 0 else period_start
  let calc_end :=
    if rule_end.isSome && award_type != "연속형" then min period_end (rule_end.getD 0)
    else period_end
  singleAwardDispatch filtered rule_group period_start period_end
    calc_start calc_end consecutive_rules award_type

/-- `calculate_single_award` (`incentive_engine.py:423-552`).
`.ok none` models the explicit `return None` at line 469; `.error` models
the uncaught `AttributeError` when the dispatch leaves `result = None`
(line 495 then calls `.get` on `None`). -/
def calculate_single_award (contracts : List Contract) (rule_group : Frame)
    (period_start period_end : Int) (consecutive_rules : Frame) :
    Except String (Option CalcResult) :=
  let rule := rule_group.rows.headD {}
  let award_type := rule.awardType.getD ""
  let rule_start := rule.startDate
  let rule_end := rule.endDate
  if rule_start.isSome && decide (period_end < rule_start.getD 0) then .ok none
  else
    match singleAwardRaw contracts rule_group period_start period_end
        consecutive_rules with
    | none => .error "AttributeError: NoneType object has no attribute get"
    | some res =>
      .ok (some (addCommonFields (applyPayoutGate res rule_end period_end)
        rule_group rule award_type rule_start rule_end))

/-! ## `incentive_engine.py`: batch orchestrator -/

/-- A `groupby(['회사', '시상명', '유형'])` key. -/
structure GroupKey where
  company : String := ""
  awardName : String := ""
  awardType : String := ""
  deriving DecidableEq, Inhabited, Repr

/-- `simple_fuzzy` (`incentive_engine.py:597-600`): substring containment
either way after stripping spaces/underscores (no case folding). -/
def simple_fuzzy (v1 v2 : Option String) : Bool :=
  match v1, v2 with
  | some a, some b =>
    let ca := (a.replace " " "").replace "_" ""
    let cb := (b.replace " " "").replace "_" ""
    strContains cb ca || strContains ca cb
  | _, _ => false

/-- `min(g, c)` when both defined, else the defined one
(`incentive_engine.py:610`). -/
def combineStart : Option Int → Option Int → Option Int
  | some g, some c => some (min g c)
  | none, c => c
  | g, none => g

/-- `max(g, c)` when both defined, else the defined one
(`incentive_engine.py:611`). -/
def combineEnd : Option Int → Option Int → Option Int
  | some g, some c => some (max g c)
  | none, c => c
  | g, none => g

/-- Group period bounds (`incentive_engine.py:582-611`), including the
fuzzy-matched consecutive-rule extension for 연속형 groups. -/
def groupBounds (key : GroupKey) (group : Frame) (consecutive_rules : Frame) :
    Option Int × Option Int :=
  let gs := (group.rows.filterMap (·.startDate)).min?
  let ge := (group.rows.filterMap (·.endDate)).max?
  if key.awardType == "연속형" then
    let c_rules :=
      if !consecutive_rules.rows.isEmpty then
        consecutive_rules.rows.filter fun r =>
          simple_fuzzy r.awardName (some key.awardName) &&
          simple_fuzzy r.company (some key.company)
      else []
    if !c_rules.isEmpty then
      (combineStart gs ((c_rules.filterMap (·.startDate)).min?),
       combineEnd ge ((c_rules.filterMap (·.endDate)).max?))
    else (gs, ge)
  else (gs, ge)

/-- Period-overlap skip (`incentive_engine.py:613-616`). -/
def skipGroup (key : GroupKey) (group : Frame) (consecutive_rules : Frame)
    (period_start period_end : Int) : Bool :=
  match groupBounds key group consecutive_rules with
  | (some gs, some ge) => decide (ge < period_start) || decide (period_end < gs)
  | _ => false

/-- `agent_name or '전체'`. -/
def agentOrAll (a : Option String) : String :=
  match a with
  | some s => if s == "" then "전체" else s
  | none => "전체"

/-- Per-row evaluation loop of the 계단형/정률형/other branch
(`incentive_engine.py:651-671`): each rule row becomes a single-row group
(no consecutive rules are passed), and `get_safe_val` on
`['목표실적','target']` / `['보상금액','지급금액','reward']` resolves to
the 목표실적 / 보상금액 fields (the alias keys are not rule columns). -/
def evalGroupRows (contracts : List Contract) (key : GroupKey) (group : Frame)
    (period_start period_end : Int) (agent : String) :
    Except String (List CalcResult) :=
  group.rows.foldlM
    (fun acc rule =>
      match calculate_single_award contracts { rows := [rule], cols := group.cols }
          period_start period_end { rows := [], cols := [] } with
      | .error e => .error e
      | .ok none => .ok acc
      | .ok (some res) =>
        .ok (acc ++ [{ res with
          agent := agent,
          targetPerf := rule.targetPerf.getD 0,
          sortTarget := some (rule.targetPerf.getD 0),
          baseReward := if key.awardType == "정률형" then res.payout
                        else rule.reward.getD 0 }]))
    []

/-- Comparator for `sort(key=지급금액, reverse=True)` (stable). -/
def payoutDescLe (a b : CalcResult) : Bool := decide (b.payout ≤ a.payout)

/-- Comparator for `sort(key=정렬_목표실적)` (`x.get('정렬_목표실적', 0)`). -/
def sortTargetLe (a b : CalcResult) : Bool :=
  decide (a.sortTarget.getD 0 ≤ b.sortTarget.getD 0)

/-- Best-of-award-name selection (`incentive_engine.py:676-689`): sort by
payout descending, keep only the top row's payout when it is positive,
then re-sort ascending by 정렬_목표실적 for display. -/
def selectBest (temp : List CalcResult) : List CalcResult :=
  match isort payoutDescLe temp with
  | [] => []
  | h :: t =>
    let zeroed :=
      if 0 < h.payout then h :: t.map fun r => { r with payout := 0, finalTotal := 0 }
      else h :: t
    isort sortTargetLe zeroed

/-- The `try`-body for one rule group (`incentive_engine.py:619-689`). -/
def evalGroup (contracts : List Contract) (key : GroupKey) (group : Frame)
    (period_start period_end : Int) (consecutive_rules : Frame)
    (agent : String) (gs ge : Option Int) : Except String (List CalcResult) :=
  if key.awardType == "연속형" || key.awardType == "합산형" then
    match calculate_single_award contracts group period_start period_end
        consecutive_rules with
    | .error e => .error e
    | .ok none => .ok []
    | .ok (some r) =>
      .ok [{ r with
        agent := agent,
        company := some key.company, awardName := some key.awardName,
        awardType := key.awardType,
        sortTarget := some 0,
        baseReward := if r.hasScenarios && !r.scenarioRewards.isEmpty then
                        qmax r.scenarioRewards
                      else r.payout,
        startDate := if gs.isSome then gs else r.startDate,
        endDate := if ge.isSome then ge else r.endDate }]
  else
    match evalGroupRows contracts key group period_start period_end agent with
    | .error e => .error e
    | .ok temp => .ok (if temp.isEmpty then [] else selectBest temp)

/-- The error row built in the `except` branch
(`incentive_engine.py:691-705`). -/
def errorRow (key : GroupKey) (agent : String) (gs ge : Option Int) (e : String) :
    CalcResult :=
  { agent := agent, company := some key.company, awardName := some key.awardName,
    awardType := key.awardType, perf := 0, payout := 0,
    stage := none, rate := 0, error := some e, compareAward := none,
    startDate := gs, endDate := ge }

/-- Code-point lexicographic string order (pandas string sort). -/
def charListLe : List Char → List Char → Bool
  | [], _ => true
  | _ :: _, [] => false
  | a :: as, b :: bs =>
    if a.val < b.val then true else if b.val < a.val then false else charListLe as bs

/-- String comparator for the final result sort. -/
def strLe (a b : String) : Bool := charListLe a.toList b.toList

/-- Optional-string comparator, NaN last. -/
def optStrLe (x y : Option String) : Bool :=
  match x, y with
  | none, none => true
  | none, some _ => false
  | some _, none => true
  | some a, some b => strLe a b

/-- Final display order `sort_values(by=['회사','시상명','정렬_목표실적'])`
(`incentive_engine.py:712-717`); error rows have no 정렬_목표실적 key
(NaN, sorted last within their award). -/
def rowOrder (a b : CalcResult) : Bool :=
  if a.company == b.company then
    if a.awardName == b.awardName then optQLe a.sortTarget b.sortTarget
    else optStrLe a.awardName b.awardName
  else optStrLe a.company b.company

/-- `calculate_all_awards` (`incentive_engine.py:555-719`) on pre-grouped
rules, as invoked per agent by `calculate_all_agents_awards`
(`rule_groups` precomputed, `rule_consecutive_map` path not taken). -/
def calculate_all_awards (contracts : List Contract)
    (rule_groups : List (GroupKey × Frame)) (period_start period_end : Int)
    (agent_name : Option String) (consecutive_rules : Frame) : List CalcResult :=
  let results := rule_groups.foldl
    (fun acc kg =>
      if skipGroup kg.1 kg.2 consecutive_rules period_start period_end then acc
      else
        let gb := groupBounds kg.1 kg.2 consecutive_rules
        acc ++
          match evalGroup contracts kg.1 kg.2 period_start period_end
              consecutive_rules (agentOrAll agent_name) gb.1 gb.2 with
          | .ok rs => rs
          | .error e => [errorRow kg.1 (agentOrAll agent_name) gb.1 gb.2 e])
    []
  isort rowOrder results

/-! ## `incentive_engine.py`: competing-award resolver -/

/-- Row validity for comparison grouping (`incentive_engine.py:733`):
`비교시상` not NaN and non-blank after strip. -/
def hasComparison (r : CalcResult) : Bool :=
  match r.compareAward with
  | some s => strip s != ""
  | none => false

/-- The marking loop over one comparison group
(`incentive_engine.py:748-756`), threading the `found_max` flag in row
order; rows outside the group pass through unchanged. -/
def markGroup (gid : String) (maxVal : ℚ) : Bool → List CalcResult → List CalcResult
  | _, [] => []
  | found, r :: rest =>
    if r.compareAward == some gid then
      if r.payout == maxVal && !found && decide (0 < maxVal) then
        { r with isSelected := true, finalTotal := r.payout } ::
          markGroup gid maxVal true rest
      else
        { r with isSelected := false, finalTotal := 0 } ::
          markGroup gid maxVal found rest
    else r :: markGroup gid maxVal found rest

/-- One comparison-group id (`incentive_engine.py:736-756`); groups with at
most one member are skipped. -/
def processGroup (rows : List CalcResult) (gid : String) : List CalcResult :=
  let members := rows.filter (·.compareAward == some gid)
  if members.length ≤ 1 then rows
  else markGroup gid (qmax (members.map (·.payout))) false rows

/-- `resolve_competing_awards` (`incentive_engine.py:722-758`). -/
def resolve_competing_awards (rows : List CalcResult) : List CalcResult :=
  if rows.isEmpty then rows
  else
    let base := rows.map fun r => { r with isSelected := true, finalTotal := r.payout }
    let gids := uniqueFirst ((base.filter hasComparison).filterMap (·.compareAward))
    gids.foldl processGroup base

/-- The deselection write applied to non-winning comparison-group members
(`incentive_engine.py:753-755`). -/
def deselect (r : CalcResult) : CalcResult :=
  { r with isSelected := false, finalTotal := 0 }

/-- The marking loop of `markGroup` restricted to the members of one
comparison group, in their input order. -/
def markMembers (m : ℚ) : Bool → List CalcResult → List CalcResult
  | _, [] => []
  | found, r :: rest =>
    if r.payout == m && !found && decide (0 < m) then
      { r with isSelected := true, finalTotal := r.payout } :: markMembers m true rest
    else deselect r :: markMembers m found rest

/-- The initialisation pass of the resolver
(`incentive_engine.py:726-727`): every row starts selected with its raw
payout as final payout. -/
def initSel (r : CalcResult) : CalcResult :=
  { r with isSelected := true, finalTotal := r.payout }

/-! ## `analysis.py`: cross-company optimizer

The embedding starts from the grouped result table: the column-alias
resolution (`col_map`, `analysis.py:362-383`) is upstream bookkeeping, and a
group carries the resolved `target`/`perf`/`base_reward`/`payout` columns
directly.  The float literal `0.98` is modelled as the decimal rational
`98/100`. -/

/-- One row of a `(회사, 시상명, 분류, 기간)` result group. -/
structure ARow where
  /-- 목표실적. -/
  target : ℚ := 0
  /-- 실적. -/
  perf : ℚ := 0
  /-- 기준보상. -/
  baseReward : ℚ := 0
  /-- 최종지급금액. -/
  payout : ℚ := 0
  deriving DecidableEq, Inhabited, Repr

/-- One group of `results_df.groupby([company, award, type, period])`
(`analysis.py:385`). -/
structure AGroup where
  company : String := ""
  awardName : String := ""
  productType : String := ""
  period : String := ""
  rows : List ARow := []
  deriving DecidableEq, Inhabited, Repr

/-- A saturated award record (`analysis.py:401-410`). -/
structure SatAward where
  company : String := ""
  awardName : String := ""
  productType : String := ""
  period : String := ""
  perf : ℚ := 0
  maxTarget : ℚ := 0
  surplus : ℚ := 0
  currentReward : ℚ := 0
  deriving DecidableEq, Inhabited, Repr

/-- An opportunity award record (`analysis.py:425-433`). -/
structure OppAward where
  company : String := ""
  awardName : String := ""
  productType : String := ""
  period : String := ""
  currentPerf : ℚ := 0
  currentMaxReward : ℚ := 0
  higherTiers : List ARow := []
  deriving DecidableEq, Inhabited, Repr

/-- A candidate match (`analysis.py:468-478`). -/
structure MatchRec where
  company : String := ""
  awardName : String := ""
  currentPerf : ℚ := 0
  currentReward : ℚ := 0
  optimizedReward : ℚ := 0
  marginalGain : ℚ := 0
  bestTierTarget : ℚ := 0
  gapToBest : ℚ := 0
  isMaxTier : Bool := false
  deriving DecidableEq, Inhabited, Repr

/-- A recommendation (`analysis.py:484-489`). -/
structure Recommendation where
  typ : String := "CROSS_OPTIMIZATION"
  sat : SatAward := {}
  opp : MatchRec := {}
  message : String := ""
  deriving DecidableEq, Inhabited, Repr

/-- Python `x or y` on numbers with `y` a fallback reward (0 and NaN-free
numeric columns assumed; 0 is the only falsy value). -/
def pyOr (x y : ℚ) : ℚ := if x == 0 then y else x

/-- `get_keywords` (`analysis.py:437-440`): first product-family keyword
contained in the name. -/
def get_keywords (name : String) : Option String :=
  ["인보험", "재물", "펫", "단체", "장기"].find? fun kw => strContains name kw

/-- Saturated/opportunity classification of one group
(`analysis.py:390-433`). -/
def classifyGroup (g : AGroup) : Option SatAward × Option OppAward :=
  let maxTarget := qmax (g.rows.map (·.target))
  let currentPerf := qmax (g.rows.map (·.perf))
  if decide (0 < maxTarget) && decide (rmul maxTarget (rdiv 98 100) ≤ currentPerf) then
    let best_row := (g.rows.filter (·.target == maxTarget)).headD {}
    (some { company := g.company, awardName := g.awardName,
            productType := g.productType, period := g.period,
            perf := currentPerf, maxTarget := maxTarget,
            surplus := rmax 0 (rsub currentPerf maxTarget),
            currentReward := pyOr best_row.baseReward best_row.payout }, none)
  else
    let possible := g.rows.filter fun r => decide (currentPerf < r.target)
    if !possible.isEmpty then
      let higher := isort (fun a b => decide (a.target ≤ b.target)) possible
      let achievedRows := g.rows.filter fun r => decide (r.target ≤ currentPerf)
      let currentMaxReward :=
        if achievedRows.isEmpty then 0
        else
          let best := (isort (fun a b => decide (b.target ≤ a.target)) achievedRows).headD {}
          pyOr best.baseReward best.payout
      (none, some { company := g.company, awardName := g.awardName,
                    productType := g.productType, period := g.period,
                    currentPerf := currentPerf, currentMaxReward := currentMaxReward,
                    higherTiers := higher })
    else (none, none)

/-- All groups classified, in input order (`analysis.py:387-433`). -/
def classifyGroups (gs : List AGroup) : List SatAward × List OppAward :=
  gs.foldl
    (fun acc g =>
      match classifyGroup g with
      | (some s, _) => (acc.1 ++ [s], acc.2)
      | (none, some o) => (acc.1, acc.2 ++ [o])
      | (none, none) => acc)
    ([], [])

/-- Candidate matches for one saturated award (`analysis.py:442-478`):
different company, same analysis period, shared product family, a reachable
higher tier under the simulated surplus transfer, and positive marginal
gain. -/
def matchesFor (sat : SatAward) (opps : List OppAward) : List MatchRec :=
  let satKw := (get_keywords sat.awardName).getD sat.productType
  opps.foldl
    (fun acc opp =>
      if opp.company == sat.company then acc
      else if opp.period != sat.period then acc
      else
        let oppKw := (get_keywords opp.awardName).getD opp.productType
        if opp.productType == sat.productType || (satKw != "" && satKw == oppKw) then
          let virtual := radd opp.currentPerf sat.surplus
          let reachable := opp.higherTiers.filter fun t => decide (t.target ≤ virtual)
          if !reachable.isEmpty then
            let bestTier := (isort (fun a b => decide (b.target ≤ a.target)) reachable).headD {}
            let potential := pyOr bestTier.baseReward bestTier.payout
            let gain := rsub potential opp.currentMaxReward
            if 0 < gain then
              acc ++ [{ company := opp.company, awardName := opp.awardName,
                        currentPerf := opp.currentPerf,
                        currentReward := opp.currentMaxReward,
                        optimizedReward := potential, marginalGain := gain,
                        bestTierTarget := bestTier.target,
                        gapToBest := rsub bestTier.target opp.currentPerf,
                        isMaxTier := bestTier.target == qmax (opp.higherTiers.map (·.target)) }]
            else acc
          else acc
        else acc)
    []

/-- Comparator of `matches.sort(key=marginal_gain, reverse=True)`. -/
def gainDescLe (a b : MatchRec) : Bool := decide (b.marginalGain ≤ a.marginalGain)

/-- `analyze_cross_company_optimization` (`analysis.py:344-491`), from the
grouped result table: classify, match every saturated award against the
opportunity pool, and recommend the top match by marginal gain. -/
def analyze_cross_company_optimization (gs : List AGroup) : List Recommendation :=
  let so := classifyGroups gs
  so.1.foldl
    (fun acc sat =>
      match (isort gainDescLe (matchesFor sat so.2)).head? with
      | some best =>
        acc ++ [{ typ := "CROSS_OPTIMIZATION", sat := sat, opp := best,
                  message := sat.company ++ " 초과분으로 " ++ best.company ++
                    " 최고구간 도전 가능!" }]
      | none => acc)
    []

def c1Contracts : List Contract := [{ acceptDate := 40, premium := 200 }]

def c1Group : Frame :=
  { rows := [
      { awardType := some "연속형", consecutiveStage := some 1,
        targetPerf := some 100, reward := some 50,
        startDate := some 0, endDate := some 30,
        stepTargets := [some 150], stepRewards := [some 30] },
      { awardType := some "연속형", consecutiveStage := some 2,
        targetPerf := some 100, reward := some 50,
        startDate := some 31, endDate := some 59 }],
    cols := ["유형", "연속단계", "목표실적", "보상금액", "시작일", "종료일",
             "1단계목표", "1단계보상"] }

def c1Result : Option CalcResult :=
  (calculate_single_award c1Contracts c1Group 0 59 { rows := [], cols := [] }).toOption.bind id

/-! ## Claims -/

/-- C1 counterexample: through `calculate_single_award`'s
consecutive→tiered fallback (`incentive_engine.py:479-488`), a
consecutive-type award pays a *positive* amount (the 1단계 step reward)
even though period 1 — strictly before the final period 2 — achieved no
target at all (`maxTarget = 0`): the prior-period invariant does not
survive the fallback path. -/
theorem continuous_fallback_counterexample :
    c1Result.map (fun r => (decide (0 < r.payout), r.periodStats)) =
      some (true, [(1, { perf := 0, maxTarget := 0, start := 0, stop := 30 }),
                   (2, { perf := 200, maxTarget := 100, start := 31, stop := 59 })]) := by
  decide

/-- C9 counterexample: a contract dated exactly `period_end` is *included*
by `filter_by_period` — the upper bound is inclusive, so the query window is
not half-open. -/
theorem filter_by_period_upper_bound_counterexample :
    filter_by_period [{ acceptDate := 5, premium := 1 }] 0 5 =
      [{ acceptDate := 5, premium := 1 }] := by decide

/-- C9 (amended): the query window is closed on both ends: a contract
belongs to `filter_by_period contracts s e` exactly when it is in
`contracts` and `s ≤ 접수일 ≤ e`; in particular both a contract dated
`period_start` and one dated `period_end` are included. -/
theorem filter_by_period_closed_window (contracts : List Contract) (s e : Int)
    (c : Contract) :
    c ∈ filter_by_period contracts s e ↔
      c ∈ contracts ∧ s ≤ c.acceptDate ∧ c.acceptDate ≤ e := by
  simp [filter_by_period, List.mem_filter]

/-- C9 witness: the characterisation evaluated at a boundary contract. -/
theorem filter_by_period_closed_window_witness :
    ({ acceptDate := 5, premium := 1 } : Contract) ∈
        filter_by_period [{ acceptDate := 5, premium := 1 }] 0 5 ↔
      ({ acceptDate := 5, premium := 1 } : Contract) ∈
          [({ acceptDate := 5, premium := 1 } : Contract)] ∧
        (0 : Int) ≤ 5 ∧ (5 : Int) ≤ 5 :=
  filter_by_period_closed_window [{ acceptDate := 5, premium := 1 }] 0 5
    { acceptDate := 5, premium := 1 }

/-- C3 counterexample: with 지급률 missing and `5단계보상 = 10`, the rate
evaluator substitutes the 5단계보상 reward column as the rate and pays
`1000 × 10% = 100 ≠ 0`. -/
theorem rate_missing_substitutes_counterexample :
    (calc_rate_type [{ acceptDate := 1, premium := 1000 }]
        { rows := [{ payRate := none,
                     stepRewards := [none, none, none, none, some 10] }],
          cols := ["지급률", "5단계보상"] }).payout = 100 ∧
    (calc_rate_type [{ acceptDate := 1, premium := 1000 }]
        { rows := [{ payRate := none,
                     stepRewards := [none, none, none, none, some 10] }],
          cols := ["지급률", "5단계보상"] }).payRate = some 10 := by decide

/-- C3 (amended): when 지급률 is missing/NaN or `≤ 0` *and* the rule's
`5단계보상` offset column is also missing or `≤ 0`, the computed payout is
0; otherwise the positive `5단계보상` value is substituted as the rate (the
deliberate offset-column work-around at `incentive_engine.py:21-26`). -/
theorem rate_zero_when_rate_and_offset_invalid
    (contracts : List Contract) (rule_group : Frame)
    (hrate : (rule_group.rows.headD {}).payRate = none ∨
      (rule_group.rows.headD {}).payRate.getD 0 ≤ 0)
    (hoff : (rule_group.rows.headD {}).stepReward 5 = none ∨
      ((rule_group.rows.headD {}).stepReward 5).getD 0 ≤ 0) :
    (calc_rate_type contracts rule_group).payout = 0 := by
  have hz : ∀ t : ℚ, rmul t (rdiv 0 100) = 0 := by
    intro t
    rw [rmul_eq, rdiv_eq]
    norm_num
  rcases hpr : (rule_group.rows.headD {}).payRate with _ | v <;>
    rcases hsr : (rule_group.rows.headD {}).stepReward 5 with _ | w
  · simp only [calc_rate_type, hpr, hsr, Option.isNone_none, Bool.true_or, if_true]
    exact hz _
  · rw [hsr] at hoff
    have hw : w ≤ 0 := by
      rcases hoff with h | h
      · exact absurd h (by simp)
      · simpa using h
    simp only [calc_rate_type, hpr, hsr, Option.isNone_none, Bool.true_or, if_true,
      if_neg (not_lt.mpr hw)]
    exact hz _
  · rw [hpr] at hrate
    have hv : v ≤ 0 := by
      rcases hrate with h | h
      · exact absurd h (by simp)
      · simpa using h
    simp only [calc_rate_type, hpr, hsr, Option.isNone_some, Bool.false_or,
      decide_eq_true_eq, Option.getD_some, if_pos hv]
    exact hz _
  · rw [hpr] at hrate
    rw [hsr] at hoff
    have hv : v ≤ 0 := by
      rcases hrate with h | h
      · exact absurd h (by simp)
      · simpa using h
    have hw : w ≤ 0 := by
      rcases hoff with h | h
      · exact absurd h (by simp)
      · simpa using h
    simp only [calc_rate_type, hpr, hsr, Option.isNone_some, Bool.false_or,
      decide_eq_true_eq, Option.getD_some, if_pos hv, if_neg (not_lt.mpr hw)]
    exact hz _

/-- C3 witness: a rule with no rate and no positive offset pays 0. -/
theorem rate_zero_witness :
    (calc_rate_type [{ acceptDate := 1, premium := 777 }]
        { rows := [{ payRate := some (-5) }], cols := ["지급률"] }).payout = 0 :=
  rate_zero_when_rate_and_offset_invalid [{ acceptDate := 1, premium := 777 }]
    { rows := [{ payRate := some (-5) }], cols := ["지급률"] }
    (Or.inr (by decide)) (Or.inl (by decide))

/-- C5: the payout-attribution gate.  Whenever a single-award evaluation
returns a result and the rule's 종료일 is defined (the queried `period_end`
always is), then: if `period_end < rule_end` the final payout (지급금액) is
0 and 지급시기도래 is `false`, while 예상지급금액 retains the raw computed
payout; otherwise the final payout equals the raw payout and 지급시기도래
is `true`. -/
theorem payout_attribution_gate
    (contracts : List Contract) (rule_group : Frame)
    (period_start period_end : Int) (consecutive_rules : Frame)
    (res : CalcResult) (re : Int)
    (hres : calculate_single_award contracts rule_group period_start period_end
      consecutive_rules = .ok (some res))
    (hre : (rule_group.rows.headD {}).endDate = some re) :
    ∃ r0, singleAwardRaw contracts rule_group period_start period_end
        consecutive_rules = some r0 ∧
      res.expectedPayout = r0.payout ∧
      (period_end < re → res.payout = 0 ∧ res.payoutDue = false) ∧
      (¬ period_end < re → res.payout = r0.payout ∧ res.payoutDue = true) := by
  rw [List.headD_eq_head?] at hre
  rcases h0 : singleAwardRaw contracts rule_group period_start period_end
      consecutive_rules with _ | r0
  · simp only [calculate_single_award, h0] at hres
    split at hres
    · exact absurd hres (by simp)
    · exact absurd hres (by simp)
  · simp only [calculate_single_award, h0] at hres
    split at hres
    · exact absurd hres (by simp)
    · simp only [Except.ok.injEq, Option.some.injEq] at hres
      refine ⟨r0, rfl, ?_, ?_, ?_⟩
      · rw [← hres]
        simp [addCommonFields, applyPayoutGate]
      · intro hlt
        rw [← hres]
        simp [addCommonFields, applyPayoutGate, hre, hlt]
      · intro hge
        rw [← hres]
        simp [addCommonFields, applyPayoutGate, hre, hge]

/-- C5 witness: a 계단형 rule whose 종료일 (day 10) has elapsed by the
queried `period_end` (day 59) pays its raw payout. -/
theorem payout_attribution_gate_witness :
    ∃ r0, singleAwardRaw [{ acceptDate := 5, premium := 100 }]
        { rows := [{ awardType := some "계단형", targetPerf := some 50,
                     reward := some 5, startDate := some 0, endDate := some 10 }],
          cols := ["유형", "목표실적", "보상금액", "시작일", "종료일"] }
        0 59 { rows := [], cols := [] } = some r0 ∧
      (((calculate_single_award [{ acceptDate := 5, premium := 100 }]
          { rows := [{ awardType := some "계단형", targetPerf := some 50,
                       reward := some 5, startDate := some 0, endDate := some 10 }],
            cols := ["유형", "목표실적", "보상금액", "시작일", "종료일"] }
          0 59 { rows := [], cols := [] }).toOption.bind id).getD {}).expectedPayout =
        r0.payout ∧
      ((59 : Int) < 10 →
        (((calculate_single_award [{ acceptDate := 5, premium := 100 }]
          { rows := [{ awardType := some "계단형", targetPerf := some 50,
                       reward := some 5, startDate := some 0, endDate := some 10 }],
            cols := ["유형", "목표실적", "보상금액", "시작일", "종료일"] }
          0 59 { rows := [], cols := [] }).toOption.bind id).getD {}).payout = 0 ∧
        (((calculate_single_award [{ acceptDate := 5, premium := 100 }]
          { rows := [{ awardType := some "계단형", targetPerf := some 50,
                       reward := some 5, startDate := some 0, endDate := some 10 }],
            cols := ["유형", "목표실적", "보상금액", "시작일", "종료일"] }
          0 59 { rows := [], cols := [] }).toOption.bind id).getD {}).payoutDue = false) ∧
      (¬ (59 : Int) < 10 →
        (((calculate_single_award [{ acceptDate := 5, premium := 100 }]
          { rows := [{ awardType := some "계단형", targetPerf := some 50,
                       reward := some 5, startDate := some 0, endDate := some 10 }],
            cols := ["유형", "목표실적", "보상금액", "시작일", "종료일"] }
          0 59 { rows := [], cols := [] }).toOption.bind id).getD {}).payout = r0.payout ∧
        (((calculate_single_award [{ acceptDate := 5, premium := 100 }]
          { rows := [{ awardType := some "계단형", targetPerf := some 50,
                       reward := some 5, startDate := some 0, endDate := some 10 }],
            cols := ["유형", "목표실적", "보상금액", "시작일", "종료일"] }
          0 59 { rows := [], cols := [] }).toOption.bind id).getD {}).payoutDue = true) :=
  payout_attribution_gate _ _ 0 59 _ _ 10 (by decide) (by decide)

theorem totalBool_stepLe : TotalBool stepLe := by
  constructor
  · intro a b
    simp only [stepLe, decide_eq_true_eq]
    exact le_total a.target b.target
  · intro a b c hab hbc
    simp only [stepLe, decide_eq_true_eq] at *
    exact le_trans hab hbc

/-- In a `Pairwise le` list, every member relates to the last element. -/
theorem pairwise_last_max {α : Type} {le : α → α → Bool} {l : List α}
    (hp : l.Pairwise (fun a b => le a b = true)) {b : α} (hb : l.getLast? = some b)
    {x : α} (hx : x ∈ l) : x = b ∨ le x b = true := by
  induction l with
  | nil => cases hx
  | cons h t ih =>
    rcases List.pairwise_cons.mp hp with ⟨hrel, hpt⟩
    cases t with
    | nil =>
      simp only [List.getLast?_singleton, Option.some.injEq] at hb
      simp only [List.mem_singleton] at hx
      exact Or.inl (hx.trans hb)
    | cons h2 t2 =>
      have hb2 : (h2 :: t2).getLast? = some b := by
        rw [List.getLast?_cons_cons] at hb
        exact hb
      rcases List.mem_cons.mp hx with rfl | hxt
      · exact Or.inr (hrel b (List.mem_of_mem_getLast? hb2))
      · exact ih hpt hb2 hxt

/-- In a `Pairwise le` list, the head relates to every member. -/
theorem pairwise_head_min {α : Type} {le : α → α → Bool} {l : List α}
    (hp : l.Pairwise (fun a b => le a b = true)) {h : α} (hh : l.head? = some h)
    {x : α} (hx : x ∈ l) : x = h ∨ le h x = true := by
  cases l with
  | nil => cases hx
  | cons a t =>
    simp only [List.head?_cons, Option.some.injEq] at hh
    subst hh
    rcases List.pairwise_cons.mp hp with ⟨hrel, _⟩
    rcases List.mem_cons.mp hx with rfl | hxt
    · exact Or.inl rfl
    · exact Or.inr (hrel x hxt)

def tieredScenarioContracts : List Contract := [{ acceptDate := 1, premium := 80000 }]

def tieredScenarioFrame : Frame :=
  { rows := [{ targetPerf := some 50000, reward := some 5000 },
             { targetPerf := some 100000, reward := some 12000 }],
    cols := ["목표실적", "보상금액"] }

/-- C6: for every tiered/summed evaluation in which some tier is achieved,
the achieved tier is one with the largest target `≤` total performance and
the payout is that tier's flat reward; when a higher tier exists,
다음목표 is the smallest target above performance, 부족금액 is
`next_target − performance` and 달성률 is
`min(performance/next_target × 100, 100)`; when no higher tier exists,
다음목표 is empty, 부족금액 0 and 달성률 100.  In particular, for tiers
(50,000 → 5,000) and (100,000 → 12,000) with performance 80,000 the result
is payout 5,000, next target 100,000, shortfall 20,000, rate 80. -/
theorem tiered_evaluator_characterisation :
    (∀ (contracts : List Contract) (rule_group : Frame),
      (∃ s ∈ buildSteps rule_group, s.target ≤ sumPremiums contracts) →
      ∃ s ∈ buildSteps rule_group,
        s.target ≤ sumPremiums contracts ∧
        (∀ s2 ∈ buildSteps rule_group,
          s2.target ≤ sumPremiums contracts → s2.target ≤ s.target) ∧
        (calc_step_type contracts rule_group).payout = s.reward ∧
        ((∃ t ∈ buildSteps rule_group, sumPremiums contracts < t.target) →
          ∃ nt, (calc_step_type contracts rule_group).nextTarget = some nt ∧
            (∃ t ∈ buildSteps rule_group,
              sumPremiums contracts < t.target ∧ t.target = nt) ∧
            (∀ t ∈ buildSteps rule_group,
              sumPremiums contracts < t.target → nt ≤ t.target) ∧
            (calc_step_type contracts rule_group).shortfall =
              nt - sumPremiums contracts ∧
            (calc_step_type contracts rule_group).rate =
              min (sumPremiums contracts / nt * 100) 100) ∧
        ((∀ t ∈ buildSteps rule_group, t.target ≤ sumPremiums contracts) →
          (calc_step_type contracts rule_group).nextTarget = none ∧
          (calc_step_type contracts rule_group).shortfall = 0 ∧
          (calc_step_type contracts rule_group).rate = 100)) ∧
    ((calc_step_type tieredScenarioContracts tieredScenarioFrame).payout = 5000 ∧
      (calc_step_type tieredScenarioContracts tieredScenarioFrame).nextTarget =
        some 100000 ∧
      (calc_step_type tieredScenarioContracts tieredScenarioFrame).shortfall = 20000 ∧
      (calc_step_type tieredScenarioContracts tieredScenarioFrame).rate = 80) := by
  constructor
  · intro contracts rule_group hach
    obtain ⟨s0, hs0mem, hs0le⟩ := hach
    have hne : ¬ (buildSteps rule_group).isEmpty = true := by
      intro h
      rw [List.isEmpty_iff] at h
      rw [h] at hs0mem
      cases hs0mem
    have hsorted := sorted_isort totalBool_stepLe (buildSteps rule_group)
    have hs0ach : s0 ∈ (isort stepLe (buildSteps rule_group)).filter
        (fun s => decide (s.target ≤ sumPremiums contracts)) :=
      List.mem_filter.mpr ⟨(mem_isort _ _ _).mpr hs0mem, by simpa using hs0le⟩
    rcases hlast : ((isort stepLe (buildSteps rule_group)).filter
        (fun s => decide (s.target ≤ sumPremiums contracts))).getLast? with _ | best
    · rw [List.getLast?_eq_none_iff] at hlast
      rw [hlast] at hs0ach
      cases hs0ach
    · have hbestach := List.mem_of_mem_getLast? hlast
      rcases List.mem_filter.mp hbestach with ⟨hbestsort, hbestle⟩
      have hbestmem : best ∈ buildSteps rule_group := (mem_isort _ _ _).mp hbestsort
      have hbestle2 : best.target ≤ sumPremiums contracts := by simpa using hbestle
      have hpachieved : (((isort stepLe (buildSteps rule_group)).filter
          (fun s => decide (s.target ≤ sumPremiums contracts))).Pairwise
          (fun a b => stepLe a b = true)) := List.Pairwise.filter _ hsorted
      have hmax : ∀ s2 ∈ buildSteps rule_group,
          s2.target ≤ sumPremiums contracts → s2.target ≤ best.target := by
        intro s2 h2mem h2le
        have h2ach : s2 ∈ (isort stepLe (buildSteps rule_group)).filter
            (fun s => decide (s.target ≤ sumPremiums contracts)) :=
          List.mem_filter.mpr ⟨(mem_isort _ _ _).mpr h2mem, by simpa using h2le⟩
        rcases pairwise_last_max hpachieved hlast h2ach with rfl | hle
        · exact le_refl _
        · simpa [stepLe] using hle
      refine ⟨best, hbestmem, hbestle2, hmax, ?_⟩
      rcases hnext : ((isort stepLe (buildSteps rule_group)).filter
          (fun s => decide (sumPremiums contracts < s.target))).head? with _ | nxt
      · have hfields : (calc_step_type contracts rule_group).payout = best.reward ∧
            (calc_step_type contracts rule_group).nextTarget = none ∧
            (calc_step_type contracts rule_group).shortfall = rmax 0 0 ∧
            (calc_step_type contracts rule_group).rate = rmin 100 100 := by
          unfold calc_step_type
          rw [if_neg hne]
          simp only [hlast, hnext]
          exact ⟨by trivial, by trivial, by trivial, by trivial⟩
        rw [List.head?_eq_none_iff] at hnext
        refine ⟨hfields.1, ?_, ?_⟩
        · intro hhigher
          obtain ⟨t, htmem, htlt⟩ := hhigher
          have : t ∈ (isort stepLe (buildSteps rule_group)).filter
              (fun s => decide (sumPremiums contracts < s.target)) :=
            List.mem_filter.mpr ⟨(mem_isort _ _ _).mpr htmem, by simpa using htlt⟩
          rw [hnext] at this
          cases this
        · intro _
          refine ⟨hfields.2.1, ?_, ?_⟩
          · rw [hfields.2.2.1, rmax_eq]
            simp
          · rw [hfields.2.2.2, rmin_eq]
            simp
      · have hfields : (calc_step_type contracts rule_group).payout = best.reward ∧
            (calc_step_type contracts rule_group).nextTarget = some nxt.target ∧
            (calc_step_type contracts rule_group).shortfall =
              rmax (rsub nxt.target (sumPremiums contracts)) 0 ∧
            (calc_step_type contracts rule_group).rate =
              rmin (rmul (rdiv (sumPremiums contracts) nxt.target) 100) 100 := by
          unfold calc_step_type
          rw [if_neg hne]
          simp only [hlast, hnext]
          exact ⟨by trivial, by trivial, by trivial, by trivial⟩
        have hnxtmem := List.mem_of_mem_head? hnext
        rcases List.mem_filter.mp hnxtmem with ⟨hnxtsort, hnxtgt⟩
        have hnxtgt2 : sumPremiums contracts < nxt.target := by simpa using hnxtgt
        refine ⟨hfields.1, ?_, ?_⟩
        · intro _
          refine ⟨nxt.target, hfields.2.1, ⟨nxt, (mem_isort _ _ _).mp hnxtsort,
            hnxtgt2, rfl⟩, ?_, ?_, ?_⟩
          · intro t htmem htlt
            have htfil : t ∈ (isort stepLe (buildSteps rule_group)).filter
                (fun s => decide (sumPremiums contracts < s.target)) :=
              List.mem_filter.mpr ⟨(mem_isort _ _ _).mpr htmem, by simpa using htlt⟩
            have hpnext := List.Pairwise.filter
              (fun s => decide (sumPremiums contracts < s.target)) hsorted
            rcases pairwise_head_min hpnext hnext htfil with rfl | hle
            · exact le_refl _
            · simpa [stepLe] using hle
          · rw [hfields.2.2.1, rmax_eq, rsub_eq]
            exact max_eq_left (sub_nonneg.mpr (le_of_lt hnxtgt2))
          · rw [hfields.2.2.2, rmin_eq, rmul_eq, rdiv_eq]
        · intro hall
          exact absurd hnxtgt2 (not_lt.mpr (hall nxt ((mem_isort _ _ _).mp hnxtsort)))
  · exact ⟨by decide, by decide, by decide, by decide⟩

/-- C6 witness: the characterisation applied to the spec scenario. -/
theorem tiered_evaluator_witness :
    ∃ s ∈ buildSteps tieredScenarioFrame,
      s.target ≤ sumPremiums tieredScenarioContracts ∧
      (∀ s2 ∈ buildSteps tieredScenarioFrame,
        s2.target ≤ sumPremiums tieredScenarioContracts → s2.target ≤ s.target) ∧
      (calc_step_type tieredScenarioContracts tieredScenarioFrame).payout = s.reward ∧
      ((∃ t ∈ buildSteps tieredScenarioFrame,
          sumPremiums tieredScenarioContracts < t.target) →
        ∃ nt, (calc_step_type tieredScenarioContracts tieredScenarioFrame).nextTarget =
            some nt ∧
          (∃ t ∈ buildSteps tieredScenarioFrame,
            sumPremiums tieredScenarioContracts < t.target ∧ t.target = nt) ∧
          (∀ t ∈ buildSteps tieredScenarioFrame,
            sumPremiums tieredScenarioContracts < t.target → nt ≤ t.target) ∧
          (calc_step_type tieredScenarioContracts tieredScenarioFrame).shortfall =
            nt - sumPremiums tieredScenarioContracts ∧
          (calc_step_type tieredScenarioContracts tieredScenarioFrame).rate =
            min (sumPremiums tieredScenarioContracts / nt * 100) 100) ∧
      ((∀ t ∈ buildSteps tieredScenarioFrame,
          t.target ≤ sumPremiums tieredScenarioContracts) →
        (calc_step_type tieredScenarioContracts tieredScenarioFrame).nextTarget = none ∧
        (calc_step_type tieredScenarioContracts tieredScenarioFrame).shortfall = 0 ∧
        (calc_step_type tieredScenarioContracts tieredScenarioFrame).rate = 100) :=
  tiered_evaluator_characterisation.1 tieredScenarioContracts tieredScenarioFrame
    ⟨{ target := 50000, reward := 5000, step := 0 }, by decide, by decide⟩

theorem optQLe_refl (x : Option ℚ) : optQLe x x = true := by
  cases x <;> simp [optQLe]

theorem totalBool_optQLe_key {α : Type} (key : α → Option ℚ) :
    TotalBool (fun a b => optQLe (key a) (key b)) := by
  constructor
  · intro a b
    cases hx : key a <;> cases hy : key b <;> simp [optQLe, hx, hy, le_total]
  · intro a b c hab hbc
    simp only at hab hbc ⊢
    cases hx : key a <;> cases hy : key b <;> cases hz : key c <;>
      rw [hx, hy] at hab <;> rw [hy, hz] at hbc <;>
      simp_all [optQLe] <;> exact le_trans hab hbc

def c4Rows : List RuleRow :=
  [{ periodNo := some 1, targetPerf := some 100 },
   { periodNo := some 1, targetPerf := some 200 },
   { periodNo := some 2, targetPerf := some 300, reward := some 10 },
   { periodNo := some 2, targetPerf := some 400, reward := some 20 }]

/-- C4 counterexample: the code sorts the current period's rewards
*ascending* (`sort_values('보상금액')`, `incentive_engine.py:293`), so the
period-2 tier with the *lowest* reward (10) receives the lowest prior
target (100) and the tier with the highest reward (20) receives 200 — not
the claimed descending pairing, which would give the highest reward the
lowest prior target. -/
theorem rank_pairing_ascending_counterexample :
    (inferPrevConds c4Rows [1, 2] 2).map (·.prevCond) =
      [none, none, some 100, some 200] := by decide

/-- C4 (amended): when the prior-period conditions are inferred, the
pairing sorts the prior period's targets ascending and the current
period's rewards *ascending* (not descending) and pairs by rank: in
`rankPairs`, both the current-period rewards and the paired prior-period
targets increase together, so the lowest prior target is paired with the
lowest (not the highest) current reward. -/
theorem rank_pairing_monotone (rCurr rPrev : List (Nat × RuleRow))
    (i j : Fin (rankPairs rCurr rPrev).length) (hij : i ≤ j) :
    optQLe ((rankPairs rCurr rPrev).get i).1.2.reward
      ((rankPairs rCurr rPrev).get j).1.2.reward = true ∧
    optQLe ((rankPairs rCurr rPrev).get i).2.2.targetPerf
      ((rankPairs rCurr rPrev).get j).2.2.targetPerf = true := by
  rcases eq_or_lt_of_le hij with rfl | hlt
  · exact ⟨optQLe_refl _, optQLe_refl _⟩
  · have hs1 := sorted_isort (totalBool_optQLe_key fun r : Nat × RuleRow => r.2.reward) rCurr
    have hs2 := sorted_isort (totalBool_optQLe_key fun r : Nat × RuleRow => r.2.targetPerf) rPrev
    have hi1 : (i : Nat) < (isort (fun a b => optQLe a.2.reward b.2.reward) rCurr).length := by
      have := i.2
      simp only [rankPairs, List.length_zip] at this
      omega
    have hj1 : (j : Nat) < (isort (fun a b => optQLe a.2.reward b.2.reward) rCurr).length := by
      have := j.2
      simp only [rankPairs, List.length_zip] at this
      omega
    have hi2 : (i : Nat) < (isort (fun a b => optQLe a.2.targetPerf b.2.targetPerf) rPrev).length := by
      have := i.2
      simp only [rankPairs, List.length_zip] at this
      omega
    have hj2 : (j : Nat) < (isort (fun a b => optQLe a.2.targetPerf b.2.targetPerf) rPrev).length := by
      have := j.2
      simp only [rankPairs, List.length_zip] at this
      omega
    have hg1 : (rankPairs rCurr rPrev).get i =
        ((isort (fun a b => optQLe a.2.reward b.2.reward) rCurr).get ⟨i, hi1⟩,
         (isort (fun a b => optQLe a.2.targetPerf b.2.targetPerf) rPrev).get ⟨i, hi2⟩) :=
      List.get_zip
    have hg2 : (rankPairs rCurr rPrev).get j =
        ((isort (fun a b => optQLe a.2.reward b.2.reward) rCurr).get ⟨j, hj1⟩,
         (isort (fun a b => optQLe a.2.targetPerf b.2.targetPerf) rPrev).get ⟨j, hj2⟩) :=
      List.get_zip
    rw [hg1, hg2]
    constructor
    · exact List.pairwise_iff_get.mp hs1 ⟨i, hi1⟩ ⟨j, hj1⟩ (by exact_mod_cast hlt)
    · exact List.pairwise_iff_get.mp hs2 ⟨i, hi2⟩ ⟨j, hj2⟩ (by exact_mod_cast hlt)

/-- C4 witness: the monotone pairing at the counterexample data — the pair
at rank 0 has (reward 10, prior target 100), the pair at rank 1 (reward 20,
prior target 200). -/
theorem rank_pairing_monotone_witness :
    optQLe ((rankPairs (c4Rows.enum.filter (·.2.periodNo == some 2))
        (c4Rows.enum.filter (·.2.periodNo == some 1))).get
          ⟨0, by decide⟩).1.2.reward
      ((rankPairs (c4Rows.enum.filter (·.2.periodNo == some 2))
        (c4Rows.enum.filter (·.2.periodNo == some 1))).get
          ⟨1, by decide⟩).1.2.reward = true ∧
    optQLe ((rankPairs (c4Rows.enum.filter (·.2.periodNo == some 2))
        (c4Rows.enum.filter (·.2.periodNo == some 1))).get
          ⟨0, by decide⟩).2.2.targetPerf
      ((rankPairs (c4Rows.enum.filter (·.2.periodNo == some 2))
        (c4Rows.enum.filter (·.2.periodNo == some 1))).get
          ⟨1, by decide⟩).2.2.targetPerf = true :=
  rank_pairing_monotone _ _ _ _ (by decide)

theorem mem_uniqueAux {α : Type} [DecidableEq α] (seen : List α) (l : List α) (x : α) :
    x ∈ uniqueAux seen l ↔ x ∈ l ∧ x ∉ seen := by
  induction l generalizing seen with
  | nil => simp [uniqueAux]
  | cons h t ih =>
    simp only [uniqueAux]
    split
    · rename_i hseen
      rw [ih]
      simp only [List.mem_cons]
      constructor
      · rintro ⟨hx, hns⟩
        exact ⟨Or.inr hx, hns⟩
      · rintro ⟨hx | hx, hns⟩
        · exact absurd (List.mem_of_elem_eq_true (hx ▸ hseen)) hns
        · exact ⟨hx, hns⟩
    · rename_i hseen
      simp only [List.mem_cons, ih, List.mem_cons]
      constructor
      · rintro (rfl | ⟨hx, hns⟩)
        · exact ⟨Or.inl rfl, fun hc => hseen (List.elem_eq_true_of_mem hc)⟩
        · exact ⟨Or.inr hx, fun hc => hns (by simp [hc])⟩
      · rintro ⟨rfl | hx, hns⟩
        · exact Or.inl rfl
        · by_cases hxh : x = h
          · exact Or.inl hxh
          · exact Or.inr ⟨hx, fun hc => hc.elim hxh hns⟩

theorem mem_uniqueFirst {α : Type} [DecidableEq α] (l : List α) (x : α) :
    x ∈ uniqueFirst l ↔ x ∈ l := by
  rw [uniqueFirst, mem_uniqueAux]
  exact ⟨fun h => h.1, fun h => ⟨h, fun hc => by cases hc⟩⟩

theorem mem_sortedUnique (l : List Int) (x : Int) :
    x ∈ sortedUnique l ↔ x ∈ l := by
  rw [sortedUnique, mem_isort, mem_uniqueFirst]

theorem foldl_intmax_le_iff (l : List Int) (a c : Int) :
    l.foldl max a ≤ c ↔ a ≤ c ∧ ∀ x ∈ l, x ≤ c := by
  induction l generalizing a with
  | nil => simp
  | cons h t ih =>
    simp only [List.foldl_cons, ih, max_le_iff, List.mem_cons]
    constructor
    · rintro ⟨⟨h1, h2⟩, h3⟩
      exact ⟨h1, fun x hx => hx.elim (fun e => e ▸ h2) (h3 x)⟩
    · rintro ⟨h1, h2⟩
      exact ⟨⟨h1, h2 h (Or.inl rfl)⟩, fun x hx => h2 x (Or.inr hx)⟩

theorem foldl_intmax_mem (l : List Int) (a : Int) :
    l.foldl max a = a ∨ l.foldl max a ∈ l := by
  induction l generalizing a with
  | nil => exact Or.inl rfl
  | cons h t ih =>
    simp only [List.foldl_cons]
    rcases ih (max a h) with heq | hmem
    · rw [heq]
      rcases max_choice a h with hc | hc
      · exact Or.inl hc
      · rw [hc]
        exact Or.inr (List.mem_cons_self _ _)
    · exact Or.inr (List.mem_cons_of_mem _ hmem)

theorem intMax?_spec {l : List Int} {m : Int} (h : l.max? = some m) :
    m ∈ l ∧ ∀ x ∈ l, x ≤ m := by
  cases l with
  | nil => cases h
  | cons a t =>
    have hdef : (a :: t).max? = some (t.foldl max a) := rfl
    rw [hdef, Option.some.injEq] at h
    subst h
    constructor
    · rcases foldl_intmax_mem t a with heq | hmem
      · rw [heq]
        exact List.mem_cons_self _ _
      · exact List.mem_cons_of_mem _ hmem
    · intro x hx
      have hself := (foldl_intmax_le_iff t a (t.foldl max a)).mp le_rfl
      rcases List.mem_cons.mp hx with rfl | hxt
      · exact hself.1
      · exact hself.2 x hxt

theorem lookup_map_key {β : Type} (l : List Int) (f : Int → β) (p : Int) (hp : p ∈ l) :
    (l.map fun x => (x, f x)).lookup p = some (f p) := by
  induction l with
  | nil => cases hp
  | cons h t ih =>
    simp only [List.map_cons]
    by_cases hph : p = h
    · subst hph
      rw [List.lookup, beq_self_eq_true]
    · rw [List.lookup, show (p == h) = false from beq_eq_false_iff_ne.mpr hph]
      rcases List.mem_cons.mp hp with rfl | hpt
      · exact absurd rfl hph
      · exact ih hpt

theorem mem_intRange (a b x : Int) : x ∈ intRange a b ↔ a ≤ x ∧ x ≤ b := by
  rw [intRange, List.mem_map]
  constructor
  · rintro ⟨i, hi, rfl⟩
    rw [List.mem_range] at hi
    constructor <;> omega
  · rintro ⟨h1, h2⟩
    refine ⟨(x - a).toNat, ?_, ?_⟩
    · rw [List.mem_range]
      omega
    · omega

theorem prevFold_aux (g : Int → ℚ) (l : List Int) (st : Bool × Option ℚ)
    (h : (l.foldl
      (fun st p =>
        if !st.1 then st
        else
          if g p == 0 then (false, st.2)
          else (true, some (match st.2 with | none => g p | some m => rmin m (g p))))
      st).1 = true) :
    st.1 = true ∧ ∀ p ∈ l, g p ≠ 0 := by
  induction l generalizing st with
  | nil => exact ⟨h, by simp⟩
  | cons p t ih =>
    rw [List.foldl_cons] at h
    rcases ih _ h with ⟨hst', hall⟩
    by_cases hflag : st.1 = true
    · refine ⟨hflag, ?_⟩
      intro q hq
      rcases List.mem_cons.mp hq with rfl | hqt
      · intro hz
        rw [if_neg (by simp [hflag]), if_pos (beq_iff_eq.mpr hz)] at hst'
        exact Bool.false_ne_true hst'
      · exact hall q hqt
    · exfalso
      rw [if_pos (by simp [Bool.not_eq_true] at hflag ⊢; exact hflag)] at hst'
      exact hflag hst'

theorem prevOkFold_spec (stats : List (Int × PStat)) (total : Int)
    (h : (prevOkFold stats total).1 = true) :
    ∀ p ∈ intRange 1 (total - 1), ((stats.lookup p).map (·.maxTarget)).getD 0 ≠ 0 :=
  (prevFold_aux (fun p => ((stats.lookup p).map (·.maxTarget)).getD 0)
    (intRange 1 (total - 1)) (true, none) h).2

theorem head_posFilter_pos (f : Nat → Option ℚ) (v : ℚ)
    (h : ((List.range 9).filterMap fun i =>
      match f (i + 1) with
      | some w => if 0 < w then some w else none
      | none => none).head? = some v) : 0 < v := by
  have hv := List.mem_of_mem_head? h
  rcases List.mem_filterMap.mp hv with ⟨i, _, hmatch⟩
  rcases hf : f (i + 1) with _ | w
  · rw [hf] at hmatch
    cases hmatch
  · rw [hf] at hmatch
    dsimp only at hmatch
    by_cases hw : 0 < w
    · rw [if_pos hw] at hmatch
      injection hmatch with h2
      rw [← h2]
      exact hw
    · rw [if_neg hw] at hmatch
      cases hmatch

theorem fillReward_targetPerf (r : RuleRow) : (fillReward r).targetPerf = r.targetPerf := by
  unfold fillReward
  split
  · split
    · rfl
    · rfl
  · rfl

theorem fillTargetPerf_nonneg (r : RuleRow) (h : 0 ≤ r.targetPerf.getD 0) :
    0 ≤ (fillTargetPerf r).targetPerf.getD 0 := by
  unfold fillTargetPerf
  split
  · rcases hh : ((List.range 9).filterMap fun i =>
        match r.stepTarget (i + 1) with
        | some w => if 0 < w then some w else none
        | none => none).head? with _ | v
    · simp only [hh]
      exact h
    · simp only [hh]
      simpa using le_of_lt (head_posFilter_pos _ v hh)
  · exact h

theorem normalize_targetPerf_nonneg (r : RuleRow) (h : 0 ≤ r.targetPerf.getD 0) :
    0 ≤ (normalize_rule_row r).targetPerf.getD 0 := by
  unfold normalize_rule_row
  rw [fillReward_targetPerf]
  exact fillTargetPerf_nonneg r h

theorem maxTarget_expr_nonneg (prules : List RuleRow) (ptotal : ℚ)
    (h : ∀ r ∈ prules, 0 ≤ r.targetPerf.getD 0) :
    0 ≤ (if ((prules.filterMap (·.targetPerf)).filter fun t =>
            decide (t ≤ ptotal)).isEmpty then (0 : ℚ)
         else qmax ((prules.filterMap (·.targetPerf)).filter fun t =>
            decide (t ≤ ptotal))) := by
  split
  · exact le_refl 0
  · rename_i hne
    have hq := qmax_mem (l := (prules.filterMap (·.targetPerf)).filter fun t =>
      decide (t ≤ ptotal)) (by simpa [List.isEmpty_iff] using hne)
    rcases List.mem_filter.mp hq with ⟨hmem, _⟩
    rcases List.mem_filterMap.mp hmem with ⟨r, hr, hrt⟩
    have hge := h r hr
    rw [hrt] at hge
    simpa using hge

theorem mkPeriodStat_maxTarget_nonneg (contracts : List Contract) (cols : List String)
    (rows : List RuleRow) (company : Option String) (ps pe p : Int)
    (h : ∀ r ∈ rows, 0 ≤ r.targetPerf.getD 0) :
    0 ≤ (mkPeriodStat contracts cols rows company ps pe p).maxTarget := by
  unfold mkPeriodStat
  exact maxTarget_expr_nonneg _ _ fun r hr => h r (List.mem_of_mem_filter hr)

theorem calc_step_type_periodStats (c : List Contract) (g : Frame) :
    (calc_step_type c g).periodStats = [] := by
  unfold calc_step_type
  dsimp only
  split
  · rfl
  · split
    · split
      · rfl
      · rfl
    · rfl

theorem core_prior_positive (contracts : List Contract) (rule_group : Frame)
    (ps pe : Int) (award_rules : Frame) (res : CalcResult)
    (hres : calcContinuousCore contracts rule_group ps pe award_rules = some res)
    (hnn : ∀ r ∈ award_rules.rows, 0 ≤ r.targetPerf.getD 0)
    (hp1 : ∀ p stat, (p, stat) ∈ res.periodStats → 1 ≤ p)
    (hpos : 0 < res.payout) :
    ∀ p stat, (p, stat) ∈ res.periodStats →
      (∃ q stat2, (q, stat2) ∈ res.periodStats ∧ p < q) → 0 < stat.maxTarget := by
  unfold calcContinuousCore at hres
  split at hres
  · cases hres
  · dsimp only at hres
    split at hres
    · cases hres
    · rename_i total htotal
      injection hres with hres
      subst hres
      simp only at hp1 hpos ⊢
      intro p stat hpstat hex
      obtain ⟨q, stat2, hqstat, hpq⟩ := hex
      rcases List.mem_map.mp hpstat with ⟨p', hp', heqp⟩
      have hpp : p' = p := congrArg Prod.fst heqp
      have hstat : mkPeriodStat contracts award_rules.cols
          (award_rules.rows.map normalize_rule_row)
          (rule_group.rows.headD {}).company ps pe p = stat := by
        rw [← hpp]
        exact congrArg Prod.snd heqp
      rw [hpp] at hp'
      rcases List.mem_map.mp hqstat with ⟨q', hq', heqq⟩
      have hq2 : q' = q := congrArg Prod.fst heqq
      rw [hq2] at hq'
      have hqle : q ≤ total :=
        (intMax?_spec htotal).2 q ((mem_sortedUnique _ _).mp hq')
      have hp1' : 1 ≤ p := hp1 p stat hpstat
      have hflag : (prevOkFold
          ((sortedUnique ((award_rules.rows.map normalize_rule_row).filterMap
            (·.periodNo))).map fun pn =>
            (pn, mkPeriodStat contracts award_rules.cols
              (award_rules.rows.map normalize_rule_row)
              (rule_group.rows.headD {}).company ps pe pn)) total).1 = true := by
        by_contra hc
        rw [Bool.not_eq_true] at hc
        revert hpos
        split
        · rw [hc]
          simp
        · simp
      have hspec := prevOkFold_spec _ total hflag p
        ((mem_intRange 1 (total - 1) p).mpr ⟨hp1', by omega⟩)
      rw [lookup_map_key
        (sortedUnique ((award_rules.rows.map normalize_rule_row).filterMap (·.periodNo)))
        (fun pn => mkPeriodStat contracts award_rules.cols
          (award_rules.rows.map normalize_rule_row)
          (rule_group.rows.headD {}).company ps pe pn) p hp'] at hspec
      simp at hspec
      rw [← List.headD_eq_head?] at hspec
      rw [← hstat]
      have hge := mkPeriodStat_maxTarget_nonneg contracts award_rules.cols
        (award_rules.rows.map normalize_rule_row)
        (rule_group.rows.headD {}).company ps pe p
        (fun r hr => by
          rcases List.mem_map.mp hr with ⟨r0, hr0, hr0eq⟩
          rw [← hr0eq]
          exact normalize_targetPerf_nonneg r0 (hnn r0 hr0))
      exact lt_of_le_of_ne hge (Ne.symm hspec)

/-- C1 (amended): for the consecutive evaluation itself (no tiered
fallback involved), a positive final payout implies that every period
strictly before the final one achieved a positive target — under the
business-data conventions that tier targets are non-negative and period
indices start at 1. -/
theorem continuous_prior_period_invariant
    (contracts : List Contract) (rule_group : Frame)
    (period_start period_end : Int) (consecutive_rules : Frame) (res : CalcResult)
    (hres : calc_continuous_type contracts rule_group period_start period_end
      consecutive_rules = some res)
    (hnn1 : ∀ r ∈ rule_group.rows, 0 ≤ r.targetPerf.getD 0)
    (hnn2 : ∀ r ∈ consecutive_rules.rows, 0 ≤ r.targetPerf.getD 0)
    (hp1 : ∀ p stat, (p, stat) ∈ res.periodStats → 1 ≤ p)
    (hpos : 0 < res.payout) :
    ∀ p stat, (p, stat) ∈ res.periodStats →
      (∃ q stat2, (q, stat2) ∈ res.periodStats ∧ p < q) → 0 < stat.maxTarget := by
  unfold calc_continuous_type at hres
  dsimp only at hres
  split at hres
  · split at hres
    · split at hres
      · split at hres
        · refine core_prior_positive _ _ _ _ _ _ hres ?_ hp1 hpos
          intro r hr
          rcases List.mem_map.mp hr with ⟨r0, hr0, hr0eq⟩
          rw [← hr0eq]
          exact hnn1 r0 hr0
        · cases hres
      · injection hres with hres
        intro p stat hpstat _
        rw [← hres, calc_step_type_periodStats] at hpstat
        cases hpstat
    · split at hres
      · split at hres
        · refine core_prior_positive _ _ _ _ _ _ hres ?_ hp1 hpos
          intro r hr
          rcases List.mem_map.mp hr with ⟨r0, hr0, hr0eq⟩
          rw [← hr0eq]
          exact hnn2 r0 (List.mem_of_mem_filter hr0)
        · cases hres
      · refine core_prior_positive _ _ _ _ _ _ hres ?_ hp1 hpos
        intro r hr
        exact hnn2 r (List.mem_of_mem_filter hr)
  · split at hres
    · split at hres
      · split at hres
        · refine core_prior_positive _ _ _ _ _ _ hres ?_ hp1 hpos
          intro r hr
          rcases List.mem_map.mp hr with ⟨r0, hr0, hr0eq⟩
          rw [← hr0eq]
          exact hnn1 r0 hr0
        · cases hres
      · injection hres with hres
        intro p stat hpstat _
        rw [← hres, calc_step_type_periodStats] at hpstat
        cases hpstat
    · rename_i hcon
      exact absurd rfl hcon

def c1wContracts : List Contract :=
  [{ acceptDate := 10, premium := 150 }, { acceptDate := 40, premium := 200 }]

def c1wRes : CalcResult :=
  (calc_continuous_type c1wContracts c1Group 0 59
    { rows := [], cols := [] }).getD {}

/-- C1 witness: a two-period consecutive award with both periods achieved
pays out, and the invariant instantiates at its first (non-final) period
stat. -/
theorem continuous_prior_period_invariant_witness :
    0 < ((c1wRes.periodStats.headD (0, {})).2).maxTarget :=
  continuous_prior_period_invariant c1wContracts c1Group 0 59
    { rows := [], cols := [] } c1wRes (by decide) (by decide) (by decide)
    (by
      intro p stat h
      have h2 := List.mem_map_of_mem Prod.fst h
      rw [show (c1wRes.periodStats).map Prod.fst = [1, 2] from by decide] at h2
      simp only [List.mem_cons, List.not_mem_nil, or_false] at h2
      rcases h2 with rfl | rfl <;> decide)
    (by decide)
    (c1wRes.periodStats.headD (0, {})).1
    (c1wRes.periodStats.headD (0, {})).2
    (by decide)
    ⟨2, { perf := 200, maxTarget := 100, start := 31, stop := 59 },
      by decide, by decide⟩

/-! ## Helper lemmas for the competing-award resolver -/

theorem nodup_uniqueAux {α : Type} [DecidableEq α] (seen l : List α) :
    (uniqueAux seen l).Nodup := by
  induction l generalizing seen with
  | nil => exact List.nodup_nil
  | cons h t ih =>
    simp only [uniqueAux]
    split
    · exact ih seen
    · refine List.nodup_cons.mpr ⟨?_, ih (h :: seen)⟩
      intro hc
      exact ((mem_uniqueAux _ _ _).mp hc).2 (List.mem_cons_self _ _)

theorem nodup_uniqueFirst {α : Type} [DecidableEq α] (l : List α) :
    (uniqueFirst l).Nodup := nodup_uniqueAux [] l

theorem markMembers_found (m : ℚ) (l : List CalcResult) :
    markMembers m true l = l.map deselect := by
  induction l with
  | nil => rfl
  | cons r t ih => simp [markMembers, ih]

theorem markMembers_not_pos (m : ℚ) (hm : ¬ 0 < m) (f : Bool) (l : List CalcResult) :
    markMembers m f l = l.map deselect := by
  induction l generalizing f with
  | nil => rfl
  | cons r t ih => simp [markMembers, ih, hm]

theorem markMembers_decomp (m : ℚ) (pre post : List CalcResult) (r0 : CalcResult)
    (hmpos : 0 < m) (hr0 : r0.payout = m) (hpre : ∀ r ∈ pre, r.payout ≠ m) :
    markMembers m false (pre ++ r0 :: post) =
      pre.map deselect ++
        { r0 with isSelected := true, finalTotal := r0.payout } ::
          post.map deselect := by
  induction pre with
  | nil =>
    rw [List.nil_append, markMembers, if_pos (by simp [hr0, hmpos]),
      markMembers_found, List.map_nil, List.nil_append]
  | cons a t ih =>
    rw [List.cons_append, markMembers,
      if_neg (by simp [hpre a (List.mem_cons_self _ _)]),
      List.map_cons, List.cons_append,
      ih (fun r hr => hpre r (List.mem_cons_of_mem _ hr))]

theorem first_attain {l : List CalcResult} {m : ℚ} (h : ∃ r ∈ l, r.payout = m) :
    ∃ pre r0 post, l = pre ++ r0 :: post ∧ r0.payout = m ∧
      ∀ r ∈ pre, r.payout ≠ m := by
  induction l with
  | nil => rcases h with ⟨r, hr, _⟩; cases hr
  | cons a t ih =>
    by_cases ha : a.payout = m
    · exact ⟨[], a, t, rfl, ha, by simp⟩
    · rcases h with ⟨r, hr, hrm⟩
      rcases List.mem_cons.mp hr with rfl | hrt
      · exact absurd hrm ha
      · rcases ih ⟨r, hrt, hrm⟩ with ⟨pre, r0, post, hl, h0, hpre⟩
        exact ⟨a :: pre, r0, post, by rw [hl]; rfl, h0,
          fun x hx => (List.mem_cons.mp hx).elim (fun e => e ▸ ha) (hpre x)⟩

theorem markGroup_filter_ne (gid gid' : String) (hne : gid' ≠ gid) (m : ℚ)
    (f : Bool) (s : List CalcResult) :
    (markGroup gid' m f s).filter (fun r => r.compareAward == some gid) =
      s.filter (fun r => r.compareAward == some gid) := by
  induction s generalizing f with
  | nil => rfl
  | cons r t ih =>
    rw [markGroup]
    by_cases hc : r.compareAward = some gid'
    · rw [if_pos (by simp [hc])]
      have h2 : (r.compareAward == some gid) = false := by simp [hc, hne]
      split <;> rw [List.filter_cons, List.filter_cons] <;>
        simp only [h2] <;>
        simp only [Bool.false_eq_true, if_false, ih]
    · rw [if_neg (by simp [hc])]
      rw [List.filter_cons, List.filter_cons, ih]

theorem markGroup_filter_eq (gid : String) (m : ℚ) (f : Bool) (s : List CalcResult) :
    (markGroup gid m f s).filter (fun r => r.compareAward == some gid) =
      markMembers m f (s.filter (fun r => r.compareAward == some gid)) := by
  induction s generalizing f with
  | nil => rfl
  | cons r t ih =>
    rw [markGroup]
    by_cases hc : r.compareAward = some gid
    · rw [if_pos (by simp [hc])]
      have h2 : (r.compareAward == some gid) = true := by simp [hc]
      split
      · rw [List.filter_cons, List.filter_cons]
        simp only [h2, if_true, if_pos]
        rw [markMembers]
        rename_i hcond
        rw [if_pos hcond, ih]
      · rw [List.filter_cons, List.filter_cons]
        simp only [h2, if_true, if_pos]
        rw [markMembers]
        rename_i hcond
        rw [if_neg hcond, ih]
        rfl
    · rw [if_neg (by simp [hc])]
      have h2 : (r.compareAward == some gid) = false := by simp [hc]
      rw [List.filter_cons, List.filter_cons]
      simp only [h2, Bool.false_eq_true, if_false, ih]

theorem processGroup_filter_ne (gid gid' : String) (hne : gid' ≠ gid)
    (s : List CalcResult) :
    (processGroup s gid').filter (fun r => r.compareAward == some gid) =
      s.filter (fun r => r.compareAward == some gid) := by
  rw [processGroup]
  split
  · rfl
  · exact markGroup_filter_ne gid gid' hne _ _ s

theorem foldl_processGroup_filter_ne (gid : String) (l : List String)
    (hl : gid ∉ l) (s : List CalcResult) :
    (l.foldl processGroup s).filter (fun r => r.compareAward == some gid) =
      s.filter (fun r => r.compareAward == some gid) := by
  induction l generalizing s with
  | nil => rfl
  | cons g t ih =>
    rw [List.foldl_cons, ih (fun hc => hl (List.mem_cons_of_mem _ hc)),
      processGroup_filter_ne gid g (fun he => hl (he ▸ List.mem_cons_self _ _)) s]

theorem resolver_filter_eq (rows : List CalcResult) (gid : String)
    (hgid : strip gid ≠ "") (hmem : ∃ r ∈ rows, r.compareAward = some gid) :
    (resolve_competing_awards rows).filter (fun r => r.compareAward == some gid) =
      (if (rows.filter (fun r => r.compareAward == some gid)).length ≤ 1 then
          (rows.filter (fun r => r.compareAward == some gid)).map initSel
        else
          markMembers
            (qmax ((rows.filter (fun r => r.compareAward == some gid)).map
              (·.payout)))
            false
            ((rows.filter (fun r => r.compareAward == some gid)).map initSel)) := by
  obtain ⟨rm, hrm, hrmc⟩ := hmem
  have hrows : ¬(rows.isEmpty = true) := by
    cases rows
    · cases hrm
    · simp
  rw [resolve_competing_awards, if_neg hrows]
  dsimp only
  have hgin : gid ∈ uniqueFirst
      (((rows.map fun r =>
          { r with isSelected := true, finalTotal := r.payout }).filter
        hasComparison).filterMap (·.compareAward)) := by
    rw [mem_uniqueFirst]
    refine List.mem_filterMap.mpr
      ⟨{ rm with isSelected := true, finalTotal := rm.payout }, ?_, ?_⟩
    · refine List.mem_filter.mpr ⟨List.mem_map_of_mem _ hrm, ?_⟩
      show hasComparison _ = true
      rw [hasComparison]
      rw [show ({ rm with isSelected := true, finalTotal := rm.payout } : CalcResult).compareAward = some gid from hrmc]
      simpa using hgid
    · rw [show ({ rm with isSelected := true, finalTotal := rm.payout } : CalcResult).compareAward = some gid from hrmc]
  obtain ⟨l1, l2, hsplit⟩ := List.append_of_mem hgin
  have hnd := nodup_uniqueFirst
      (((rows.map fun r =>
          { r with isSelected := true, finalTotal := r.payout }).filter
        hasComparison).filterMap (·.compareAward))
  rw [hsplit] at hnd
  rw [List.nodup_append] at hnd
  have hg1 : gid ∉ l1 := fun hc => hnd.2.2 hc (List.mem_cons_self _ _)
  have hg2 : gid ∉ l2 := (List.nodup_cons.mp hnd.2.1).1
  rw [hsplit, List.foldl_append, List.foldl_cons]
  rw [foldl_processGroup_filter_ne gid l2 hg2]
  have hs1 : (l1.foldl processGroup (rows.map fun r =>
        { r with isSelected := true, finalTotal := r.payout })).filter
        (fun r => r.compareAward == some gid)
      = (rows.filter (fun r => r.compareAward == some gid)).map initSel := by
    rw [foldl_processGroup_filter_ne gid l1 hg1, List.filter_map]
    rfl
  rw [processGroup]
  rw [hs1, List.length_map]
  split
  · exact hs1
  · rw [markGroup_filter_eq, hs1, List.map_map]
    rfl

/-- C2: for every comparison group (rows sharing the non-blank `비교시상`
value `gid`) with at least one positive raw payout, the resolver output
restricted to the group decomposes as: every member before the first
maximal-payout member is deselected with final payout 0, that first
maximal member (input order — the tie-break) is the unique selected row
and keeps its raw payout as final payout, and every later member is
deselected with final payout 0. -/
theorem resolver_group_selection
    (rows : List CalcResult) (gid : String)
    (hgid : strip gid ≠ "")
    (hpos : ∃ r ∈ rows, r.compareAward = some gid ∧ 0 < r.payout) :
    ∃ pre r0 post,
      rows.filter (fun r => r.compareAward == some gid) = pre ++ r0 :: post ∧
      0 < r0.payout ∧
      (∀ r ∈ pre, r.payout < r0.payout) ∧
      (∀ r ∈ rows, r.compareAward = some gid → r.payout ≤ r0.payout) ∧
      (resolve_competing_awards rows).filter (fun r => r.compareAward == some gid) =
        pre.map deselect ++
          { r0 with isSelected := true, finalTotal := r0.payout } ::
            post.map deselect := by
  obtain ⟨rp, hrp, hrpc, hrppos⟩ := hpos
  have hums : rp ∈ rows.filter (fun r => r.compareAward == some gid) :=
    List.mem_filter.mpr ⟨hrp, by simp [hrpc]⟩
  have hfil := resolver_filter_eq rows gid hgid ⟨rp, hrp, hrpc⟩
  have humsne : rows.filter (fun r => r.compareAward == some gid) ≠ [] := by
    intro h
    rw [h] at hums
    cases hums
  have hmax_mem : qmax ((rows.filter (fun r => r.compareAward == some gid)).map
        (·.payout)) ∈
      (rows.filter (fun r => r.compareAward == some gid)).map (·.payout) :=
    qmax_mem (by simpa using humsne)
  have hmaxpos : 0 < qmax ((rows.filter (fun r => r.compareAward == some gid)).map
      (·.payout)) :=
    lt_of_lt_of_le hrppos (le_qmax_of_mem (List.mem_map_of_mem _ hums))
  obtain ⟨r0m, hr0m, hr0meq⟩ := List.mem_map.mp hmax_mem
  obtain ⟨pre, r0, post, hdec, hr0, hpre⟩ := first_attain ⟨r0m, hr0m, hr0meq⟩
  refine ⟨pre, r0, post, hdec, ?_, ?_, ?_, ?_⟩
  · rw [hr0]; exact hmaxpos
  · intro r hr
    have hle : r.payout ≤ qmax ((rows.filter
          (fun r => r.compareAward == some gid)).map (·.payout)) :=
      le_qmax_of_mem (List.mem_map_of_mem _ (hdec ▸ List.mem_append_left _ hr))
    rw [hr0]
    exact lt_of_le_of_ne hle (hpre r hr)
  · intro r hr hc
    rw [hr0]
    exact le_qmax_of_mem (List.mem_map_of_mem _ (List.mem_filter.mpr ⟨hr, by simp [hc]⟩))
  · rw [hfil]
    by_cases hlen : (rows.filter (fun r => r.compareAward == some gid)).length ≤ 1
    · rw [if_pos hlen]
      have h1 : (rows.filter (fun r => r.compareAward == some gid)).length = 1 := by
        have := List.length_pos.mpr humsne
        omega
      rw [hdec, List.length_append, List.length_cons] at h1
      have hpe : pre = [] := List.eq_nil_of_length_eq_zero (by omega)
      have hpo : post = [] := List.eq_nil_of_length_eq_zero (by omega)
      subst hpe
      subst hpo
      rw [hdec]
      rfl
    · rw [if_neg hlen]
      set mV := qmax ((rows.filter (fun r => r.compareAward == some gid)).map
        (·.payout)) with hmV
      rw [hdec, List.map_append, List.map_cons]
      rw [markMembers_decomp _ (pre.map initSel) (post.map initSel) (initSel r0)
        hmaxpos hr0 ?_]
      · rw [List.map_map, List.map_map]
        rfl
      · intro r hr
        rcases List.mem_map.mp hr with ⟨x, hx, rfl⟩
        exact hpre x hx

def c2Rows : List CalcResult :=
  [{ compareAward := some "G", payout := 10 },
   { compareAward := some "G", payout := 25 },
   { compareAward := some "G", payout := 25 },
   { compareAward := none, payout := 99 }]

/-- C2 witness: a three-member group with a tied maximum and an unrelated
row, instantiating the resolver-selection theorem. -/
theorem resolver_group_selection_witness :
    ∃ pre r0 post,
      c2Rows.filter (fun r => r.compareAward == some "G") = pre ++ r0 :: post ∧
      0 < r0.payout ∧
      (∀ r ∈ pre, r.payout < r0.payout) ∧
      (∀ r ∈ c2Rows, r.compareAward = some "G" → r.payout ≤ r0.payout) ∧
      (resolve_competing_awards c2Rows).filter
          (fun r => r.compareAward == some "G") =
        pre.map deselect ++
          { r0 with isSelected := true, finalTotal := r0.payout } ::
            post.map deselect :=
  resolver_group_selection c2Rows "G" (by decide) (by decide)

/-- C10: in a comparison group with at least two members in which every
member's raw payout is zero, no member is selected — every member ends
deselected with final payout 0. -/
theorem resolver_zero_group (rows : List CalcResult) (gid : String)
    (hgid : strip gid ≠ "")
    (hlen : 2 ≤ (rows.filter (fun r => r.compareAward == some gid)).length)
    (hzero : ∀ r ∈ rows, r.compareAward = some gid → r.payout = 0) :
    ∀ r ∈ (resolve_competing_awards rows).filter
        (fun r => r.compareAward == some gid),
      r.isSelected = false ∧ r.finalTotal = 0 := by
  have hmem : ∃ r ∈ rows, r.compareAward = some gid := by
    rcases List.exists_mem_of_length_pos
      (lt_of_lt_of_le (show (0:Nat) < 2 by norm_num) hlen) with ⟨r, hr⟩
    exact ⟨r, (List.mem_filter.mp hr).1, by
      have h2 := (List.mem_filter.mp hr).2
      simpa using h2⟩
  have hfil := resolver_filter_eq rows gid hgid hmem
  rw [hfil, if_neg (fun hc => absurd (le_trans hlen hc) (by norm_num))]
  have hm0 : qmax ((rows.filter (fun r => r.compareAward == some gid)).map
      (·.payout)) = 0 := by
    have hne : (rows.filter (fun r => r.compareAward == some gid)).map
        (·.payout) ≠ [] := by
      intro h
      have h2 := congrArg List.length h
      rw [List.length_map] at h2
      simp only [List.length_nil] at h2
      rw [h2] at hlen
      exact absurd hlen (by norm_num)
    rcases List.mem_map.mp (qmax_mem hne) with ⟨x, hx, hxe⟩
    rw [← hxe]
    exact hzero x (List.mem_filter.mp hx).1 (by
      have h2 := (List.mem_filter.mp hx).2
      simpa using h2)
  rw [markMembers_not_pos _ (by rw [hm0]; exact lt_irrefl 0) _ _]
  intro r hr
  rcases List.mem_map.mp hr with ⟨x, hx, rfl⟩
  exact ⟨rfl, rfl⟩

def c10Rows : List CalcResult :=
  [{ compareAward := some "Z", payout := 0 },
   { compareAward := some "Z", payout := 0 }]

/-- C10 witness: a two-member all-zero group, instantiating the
no-selection theorem at the first member of the resolved group. -/
theorem resolver_zero_group_witness :
    (((resolve_competing_awards c10Rows).filter
        (fun r => r.compareAward == some "Z")).headD {}).isSelected = false ∧
    (((resolve_competing_awards c10Rows).filter
        (fun r => r.compareAward == some "Z")).headD {}).finalTotal = 0 :=
  resolver_zero_group c10Rows "Z" (by decide) (by decide) (by decide)
    (((resolve_competing_awards c10Rows).filter
        (fun r => r.compareAward == some "Z")).headD {})
    (by decide)

/-! ## Helper lemmas for the cross-company optimizer -/

theorem foldl_mem_invariant {α β : Type} (P : α → β → Prop)
    {f : List β → α → List β}
    (hf : ∀ acc x y, y ∈ f acc x → y ∈ acc ∨ P x y)
    (l : List α) (acc : List β) (y : β) (hy : y ∈ l.foldl f acc) :
    y ∈ acc ∨ ∃ x ∈ l, P x y := by
  induction l generalizing acc with
  | nil => exact Or.inl hy
  | cons a t ih =>
    rcases ih (f acc a) hy with h | ⟨x, hx, hP⟩
    · rcases hf acc a y h with h2 | h2
      · exact Or.inl h2
      · exact Or.inr ⟨a, List.mem_cons_self _ _, h2⟩
    · exact Or.inr ⟨x, List.mem_cons_of_mem _ hx, hP⟩

theorem totalBool_gainDescLe : TotalBool gainDescLe := by
  constructor
  · intro a b
    simp only [gainDescLe, decide_eq_true_eq]
    exact le_total b.marginalGain a.marginalGain
  · intro a b c hab hbc
    simp only [gainDescLe, decide_eq_true_eq] at *
    exact le_trans hbc hab

theorem mem_matchesFor (sat : SatAward) (opps : List OppAward) (m : MatchRec)
    (h : m ∈ matchesFor sat opps) :
    ∃ opp ∈ opps, opp.company ≠ sat.company ∧ opp.period = sat.period ∧
      m.company = opp.company ∧ m.awardName = opp.awardName ∧
      0 < m.marginalGain := by
  simp only [matchesFor] at h
  have hstep : ∀ acc opp y, y ∈ (fun (acc : List MatchRec) (opp : OppAward) =>
      if opp.company == sat.company then acc
      else if opp.period != sat.period then acc
      else
        let oppKw := (get_keywords opp.awardName).getD opp.productType
        if opp.productType == sat.productType ||
            (((get_keywords sat.awardName).getD sat.productType) != "" &&
              ((get_keywords sat.awardName).getD sat.productType) == oppKw) then
          let virtual := radd opp.currentPerf sat.surplus
          let reachable := opp.higherTiers.filter fun t => decide (t.target ≤ virtual)
          if !reachable.isEmpty then
            let bestTier := (isort (fun a b => decide (b.target ≤ a.target))
              reachable).headD ({} : ARow)
            let potential := pyOr bestTier.baseReward bestTier.payout
            let gain := rsub potential opp.currentMaxReward
            if 0 < gain then
              acc ++ [{ company := opp.company, awardName := opp.awardName,
                        currentPerf := opp.currentPerf,
                        currentReward := opp.currentMaxReward,
                        optimizedReward := potential, marginalGain := gain,
                        bestTierTarget := bestTier.target,
                        gapToBest := rsub bestTier.target opp.currentPerf,
                        isMaxTier := bestTier.target ==
                          qmax (opp.higherTiers.map (·.target)) }]
            else acc
          else acc
        else acc) acc opp →
      y ∈ acc ∨ (opp.company ≠ sat.company ∧ opp.period = sat.period ∧
        y.company = opp.company ∧ y.awardName = opp.awardName ∧
        0 < y.marginalGain) := by
    intro acc opp y hy
    dsimp only at hy
    by_cases hco : (opp.company == sat.company) = true
    · rw [if_pos hco] at hy
      exact Or.inl hy
    · rw [if_neg hco] at hy
      by_cases hpe : (opp.period != sat.period) = true
      · rw [if_pos hpe] at hy
        exact Or.inl hy
      · rw [if_neg hpe] at hy
        split at hy
        · split at hy
          · split at hy
            · rcases List.mem_append.mp hy with h3 | h3
              · exact Or.inl h3
              · rcases List.mem_cons.mp h3 with rfl | h4
                · refine Or.inr ⟨fun he => hco (by simp [he]), ?_, rfl, rfl, ?_⟩
                  · simpa using hpe
                  · rename_i hgain
                    exact hgain
                · cases h4
            · exact Or.inl hy
          · exact Or.inl hy
        · exact Or.inl hy
  rcases foldl_mem_invariant
      (fun opp m => opp.company ≠ sat.company ∧ opp.period = sat.period ∧
        m.company = opp.company ∧ m.awardName = opp.awardName ∧
        0 < m.marginalGain)
      hstep opps [] m h with h2 | h2
  · cases h2
  · exact h2

theorem mem_analyze (gs : List AGroup) (rec : Recommendation)
    (h : rec ∈ analyze_cross_company_optimization gs) :
    ∃ sat ∈ (classifyGroups gs).1, ∃ best,
      (isort gainDescLe (matchesFor sat (classifyGroups gs).2)).head? = some best ∧
      rec.sat = sat ∧ rec.opp = best := by
  simp only [analyze_cross_company_optimization] at h
  have hstep : ∀ acc sat y, y ∈ (fun (acc : List Recommendation) (sat : SatAward) =>
      match (isort gainDescLe (matchesFor sat (classifyGroups gs).2)).head? with
      | some best =>
        acc ++ [({ typ := "CROSS_OPTIMIZATION", sat := sat, opp := best,
                   message := sat.company ++ " 초과분으로 " ++ best.company ++
                     " 최고구간 도전 가능!" } : Recommendation)]
      | none => acc) acc sat →
      y ∈ acc ∨ ∃ best, (isort gainDescLe (matchesFor sat
          (classifyGroups gs).2)).head? = some best ∧ y.sat = sat ∧ y.opp = best := by
    intro acc sat y hy
    dsimp only at hy
    split at hy
    · rename_i best hhead
      rcases List.mem_append.mp hy with h3 | h3
      · exact Or.inl h3
      · rcases List.mem_cons.mp h3 with rfl | h4
        · exact Or.inr ⟨best, hhead, rfl, rfl⟩
        · cases h4
    · exact Or.inl hy
  rcases foldl_mem_invariant
      (fun sat rec => ∃ best, (isort gainDescLe (matchesFor sat
          (classifyGroups gs).2)).head? = some best ∧ rec.sat = sat ∧ rec.opp = best)
      hstep (classifyGroups gs).1 [] rec h with h2 | h2
  · cases h2
  · exact h2

/-- C7: every recommendation of the cross-company optimizer pairs its
saturated award with an opportunity from a *different* company, drawn from
the same analysis period, with a strictly positive marginal gain, and the
recommended match is one of the saturated award's candidate matches with
the greatest marginal gain among them. -/
theorem optimizer_recommendation_sound (gs : List AGroup) (rec : Recommendation)
    (hrec : rec ∈ analyze_cross_company_optimization gs) :
    rec.opp.company ≠ rec.sat.company ∧
    0 < rec.opp.marginalGain ∧
    (∃ opp ∈ (classifyGroups gs).2, opp.company = rec.opp.company ∧
      opp.awardName = rec.opp.awardName ∧ opp.period = rec.sat.period) ∧
    rec.opp ∈ matchesFor rec.sat (classifyGroups gs).2 ∧
    ∀ m ∈ matchesFor rec.sat (classifyGroups gs).2,
      m.marginalGain ≤ rec.opp.marginalGain := by
  obtain ⟨sat, hsat, best, hhead, hrsat, hropp⟩ := mem_analyze gs rec hrec
  have hbmem : best ∈ matchesFor sat (classifyGroups gs).2 :=
    (mem_isort _ _ _).mp (List.mem_of_mem_head? (Option.mem_def.mpr hhead))
  obtain ⟨opp, hopp, hcne, hper, hcomp, haw, hgain⟩ :=
    mem_matchesFor sat _ best hbmem
  rw [hrsat, hropp]
  refine ⟨?_, hgain, ⟨opp, hopp, hcomp.symm, haw.symm, ?_⟩, hbmem, ?_⟩
  · rw [hcomp]
    exact fun he => hcne (he.trans rfl)
  · exact hper
  · intro m hm
    have hmi : m ∈ isort gainDescLe (matchesFor sat (classifyGroups gs).2) :=
      (mem_isort _ _ _).mpr hm
    rcases pairwise_head_min (sorted_isort totalBool_gainDescLe _) hhead hmi with
      rfl | hle
    · exact le_refl _
    · simpa [gainDescLe] using hle

def c7Groups : List AGroup :=
  [{ company := "A", awardName := "펫A", productType := "유형1", period := "2024-05",
     rows := [{ target := 100, perf := 150, baseReward := 20 }] },
   { company := "B", awardName := "펫B", productType := "유형2", period := "2024-05",
     rows := [{ target := 80, perf := 80, baseReward := 30 },
              { target := 120, perf := 80, baseReward := 70 }] }]

def c7Rec : Recommendation :=
  (analyze_cross_company_optimization c7Groups).headD {}

/-- C7 witness: company A's saturated 펫 award funds company B's higher
tier in the same period; the soundness theorem instantiates at the
produced recommendation. -/
theorem optimizer_recommendation_sound_witness :
    c7Rec.opp.company ≠ c7Rec.sat.company ∧
    0 < c7Rec.opp.marginalGain ∧
    (∃ opp ∈ (classifyGroups c7Groups).2, opp.company = c7Rec.opp.company ∧
      opp.awardName = c7Rec.opp.awardName ∧ opp.period = c7Rec.sat.period) ∧
    c7Rec.opp ∈ matchesFor c7Rec.sat (classifyGroups c7Groups).2 ∧
    ∀ m ∈ matchesFor c7Rec.sat (classifyGroups c7Groups).2,
      m.marginalGain ≤ c7Rec.opp.marginalGain :=
  optimizer_recommendation_sound c7Groups c7Rec (by decide)

/-! ## Helper lemmas for the batch orchestrator -/

theorem foldl_mem_mono {α β : Type} {f : List β → α → List β}
    (hmono : ∀ acc x y, y ∈ acc → y ∈ f acc x)
    (l : List α) (acc : List β) (y : β) (hy : y ∈ acc) :
    y ∈ l.foldl f acc := by
  induction l generalizing acc with
  | nil => exact hy
  | cons a t ih => exact ih _ (hmono acc a y hy)

theorem mem_calculate_all_awards (contracts : List Contract)
    (rule_groups : List (GroupKey × Frame)) (period_start period_end : Int)
    (agent_name : Option String) (consecutive_rules : Frame)
    (key : GroupKey) (g : Frame) (x : CalcResult)
    (hmem : (key, g) ∈ rule_groups)
    (hskip : skipGroup key g consecutive_rules period_start period_end = false)
    (hx : x ∈ (match evalGroup contracts key g period_start period_end
        consecutive_rules (agentOrAll agent_name)
        (groupBounds key g consecutive_rules).1
        (groupBounds key g consecutive_rules).2 with
      | .ok rs => rs
      | .error e => [errorRow key (agentOrAll agent_name)
          (groupBounds key g consecutive_rules).1
          (groupBounds key g consecutive_rules).2 e])) :
    x ∈ calculate_all_awards contracts rule_groups period_start period_end
      agent_name consecutive_rules := by
  rw [calculate_all_awards]
  dsimp only
  rw [mem_isort]
  obtain ⟨l1, l2, heq⟩ := List.append_of_mem hmem
  rw [heq, List.foldl_append, List.foldl_cons]
  apply foldl_mem_mono
  · intro acc kg y hy
    dsimp only
    split
    · exact hy
    · exact List.mem_append_left _ hy
  · dsimp only
    rw [hskip]
    simp only [Bool.false_eq_true, if_false]
    exact List.mem_append_right _ hx

/-- C8: if one (agent, rule-group) evaluation raises, the batch converts
it into an error row — error message recorded, performance and payout
zero, company/award taken from the group key — while every row of every
successfully evaluated group still appears in the batch output: one bad
rule group never aborts the batch. -/
theorem batch_error_isolation
    (contracts : List Contract) (rule_groups : List (GroupKey × Frame))
    (period_start period_end : Int) (agent_name : Option String)
    (consecutive_rules : Frame) (key : GroupKey) (g : Frame) (e : String)
    (hmem : (key, g) ∈ rule_groups)
    (hskip : skipGroup key g consecutive_rules period_start period_end = false)
    (herr : evalGroup contracts key g period_start period_end consecutive_rules
        (agentOrAll agent_name) (groupBounds key g consecutive_rules).1
        (groupBounds key g consecutive_rules).2 = .error e) :
    (∃ row ∈ calculate_all_awards contracts rule_groups period_start period_end
        agent_name consecutive_rules,
      row.error = some e ∧ row.perf = 0 ∧ row.payout = 0 ∧
      row.company = some key.company ∧ row.awardName = some key.awardName) ∧
    ∀ key2 g2 rs2, (key2, g2) ∈ rule_groups →
      skipGroup key2 g2 consecutive_rules period_start period_end = false →
      evalGroup contracts key2 g2 period_start period_end consecutive_rules
          (agentOrAll agent_name) (groupBounds key2 g2 consecutive_rules).1
          (groupBounds key2 g2 consecutive_rules).2 = .ok rs2 →
      ∀ row ∈ rs2, row ∈ calculate_all_awards contracts rule_groups
        period_start period_end agent_name consecutive_rules := by
  constructor
  · refine ⟨errorRow key (agentOrAll agent_name)
      (groupBounds key g consecutive_rules).1
      (groupBounds key g consecutive_rules).2 e, ?_, rfl, rfl, rfl, rfl, rfl⟩
    apply mem_calculate_all_awards contracts rule_groups period_start period_end
      agent_name consecutive_rules key g _ hmem hskip
    rw [herr]
    exact List.mem_singleton.mpr rfl
  · intro key2 g2 rs2 hm2 hs2 he2 row hrow
    apply mem_calculate_all_awards contracts rule_groups period_start period_end
      agent_name consecutive_rules key2 g2 _ hm2 hs2
    rw [he2]
    exact hrow

def c8Contracts : List Contract := [{ acceptDate := 1, premium := 1000 }]

def c8BadGroup : Frame :=
  { rows := [
      { awardType := some "연속형", consecutiveStage := some 1,
        targetPerf := some 100, reward := some 50 },
      { awardType := some "연속형", consecutiveStage := none,
        targetPerf := some 100, reward := some 50 }],
    cols := ["유형", "연속단계", "목표실적", "보상금액"] }

def c8OkGroup : Frame :=
  { rows := [{ awardType := some "정률형", payRate := some 5 }],
    cols := ["유형", "지급률"] }

def c8Key : GroupKey := { company := "X", awardName := "불량시상", awardType := "연속형" }

def c8Key2 : GroupKey := { company := "Y", awardName := "정상시상", awardType := "정률형" }

def c8Groups : List (GroupKey × Frame) := [(c8Key, c8BadGroup), (c8Key2, c8OkGroup)]

/-- C8 witness: a batch of one 연속형 group whose NaN 연속단계 raises and
one healthy 정률형 group, instantiating the isolation theorem. -/
theorem batch_error_isolation_witness :
    (∃ row ∈ calculate_all_awards c8Contracts c8Groups 0 59 none
        { rows := [], cols := [] },
      row.error = some "AttributeError: NoneType object has no attribute get" ∧
      row.perf = 0 ∧ row.payout = 0 ∧
      row.company = some c8Key.company ∧ row.awardName = some c8Key.awardName) ∧
    ∀ key2 g2 rs2, (key2, g2) ∈ c8Groups →
      skipGroup key2 g2 { rows := [], cols := [] } 0 59 = false →
      evalGroup c8Contracts key2 g2 0 59 { rows := [], cols := [] }
          (agentOrAll none) (groupBounds key2 g2 { rows := [], cols := [] }).1
          (groupBounds key2 g2 { rows := [], cols := [] }).2 = .ok rs2 →
      ∀ row ∈ rs2, row ∈ calculate_all_awards c8Contracts c8Groups 0 59 none
        { rows := [], cols := [] } :=
  batch_error_isolation c8Contracts c8Groups 0 59 none { rows := [], cols := [] }
    c8Key c8BadGroup "AttributeError: NoneType object has no attribute get"
    (by decide) (by decide) (by decide)
